import Mathlib

/-!
# SpeedTest: a shallow embedding of the measurement engine

The definitions below follow `SpeedTest.cpp`, `SpeedTestClient.cpp` and
`TestConfigTemplate.h`.

Conventions of the embedding

* C `long` and `int` values are integers (`Int`).  Signed overflow is undefined
  behaviour in C++ and is not modelled; `LONG_MAX` is the 64-bit constant.
* C `double` and `float` values are values of `Dbl`: a rational, one of the two
  infinities, or NaN.  Every arithmetic operation and every conversion rounds its exact
  result to the nearest value of the format, ties to even, as IEEE 754 prescribes
  (`Dbl.round`); the special values follow IEEE 754; the two zeros are not told apart.
* Everything outside the repository that a function depends on (the peer, the clock,
  the operating system) is passed in as an explicit environment argument.
* Callbacks and socket operations are returned as logs, in the order they happen (the
  callbacks are the calls made when a callback is given).
-/

namespace SpeedTest

/-! ## Floating point values -/

/-- A C `double` or `float`: a rational, plus or minus infinity, or NaN. -/
inductive Dbl where
  | fin (q : ℚ)
  | pinf
  | ninf
  | nan
  deriving DecidableEq

/-- A binary floating-point format of IEEE 754: the number of bits of the significand and
the exponents of the least and of the greatest normal numbers. -/
structure Format where
  prec : Nat
  emin : Int
  emax : Int

/-- The format of a C `double`. -/
def binary64 : Format := ⟨53, -1022, 1023⟩

/-- The format of a C `float`. -/
def binary32 : Format := ⟨24, -126, 127⟩

/-- The integer nearest to `x`, and the even one of the two nearest when `x` lies half
way between them. -/
def roundHalfEven (x : ℚ) : Int :=
  if x - ⌊x⌋ < 1 / 2 then ⌊x⌋
  else if 1 / 2 < x - ⌊x⌋ then ⌊x⌋ + 1
  else if ⌊x⌋ % 2 = 0 then ⌊x⌋ else ⌊x⌋ + 1

/-- The distance between neighbouring numbers of the format around `q`: the weight of the
last bit of the significand, which is constant below the least normal number. -/
def Format.ulp (f : Format) (q : ℚ) : ℚ :=
  (2 : ℚ) ^ (max (Int.log 2 |q|) f.emin - ((f.prec : Int) - 1))

namespace Dbl

/-- Rounding of an exact result to the format, to nearest and ties to even; a result
that rounds beyond the greatest finite number is an infinity. -/
def round (f : Format) (q : ℚ) : Dbl :=
  if q = 0 then fin 0
  else
    let r : ℚ := (roundHalfEven (q / f.ulp q) : ℚ) * f.ulp q
    if (2 : ℚ) ^ (f.emax + 1) ≤ |r| then (if 0 < q then pinf else ninf) else fin r

/-- Conversion of an integer to `double` (`static_cast<double>`, or the usual arithmetic
conversion). -/
def ofInt (n : Int) : Dbl := round binary64 (n : ℚ)

/-- The C comparison `a < b`; false as soon as one side is NaN. -/
def lt : Dbl → Dbl → Bool
  | fin a, fin b => decide (a < b)
  | fin _, pinf => true
  | ninf, fin _ => true
  | ninf, pinf => true
  | _, _ => false

/-- The C comparison `a <= b`; false as soon as one side is NaN. -/
def le : Dbl → Dbl → Bool
  | fin a, fin b => decide (a ≤ b)
  | fin _, pinf => true
  | ninf, fin _ => true
  | ninf, pinf => true
  | pinf, pinf => true
  | ninf, ninf => true
  | _, _ => false

/-- The C comparison `a > b`. -/
def gt (a b : Dbl) : Bool := lt b a

/-- The C comparison `a >= b`. -/
def ge (a b : Dbl) : Bool := le b a

/-- Addition in the format `f`: NaN is absorbing and opposite infinities give NaN. -/
def addF (f : Format) : Dbl → Dbl → Dbl
  | fin a, fin b => round f (a + b)
  | nan, _ => nan
  | _, nan => nan
  | pinf, ninf => nan
  | ninf, pinf => nan
  | pinf, _ => pinf
  | _, pinf => pinf
  | ninf, _ => ninf
  | _, ninf => ninf

/-- Division in the format `f`.  A zero divisor is read as `+0.0`, which is what every
zero divisor of this program is (the conversion of the integer 0): `0/0` is NaN and
`x/0` is the infinity with the sign of `x`. -/
def divF (f : Format) : Dbl → Dbl → Dbl
  | fin a, fin b =>
    if b = 0 then (if a = 0 then nan else if 0 < a then pinf else ninf)
    else round f (a / b)
  | nan, _ => nan
  | _, nan => nan
  | fin _, pinf => fin 0
  | fin _, ninf => fin 0
  | pinf, fin b => if 0 ≤ b then pinf else ninf
  | ninf, fin b => if 0 ≤ b then ninf else pinf
  | pinf, pinf => nan
  | pinf, ninf => nan
  | ninf, pinf => nan
  | ninf, ninf => nan

/-- Negation. -/
def neg : Dbl → Dbl
  | fin a => fin (-a)
  | pinf => ninf
  | ninf => pinf
  | nan => nan

/-- Subtraction in the format `f`. -/
def subF (f : Format) (a b : Dbl) : Dbl := addF f a (neg b)

/-- Multiplication in the format `f`: NaN is absorbing, and zero times an infinity is
NaN. -/
def mulF (f : Format) : Dbl → Dbl → Dbl
  | fin a, fin b => round f (a * b)
  | nan, _ => nan
  | _, nan => nan
  | pinf, fin b => if b = 0 then nan else if 0 < b then pinf else ninf
  | ninf, fin b => if b = 0 then nan else if 0 < b then ninf else pinf
  | fin a, pinf => if a = 0 then nan else if 0 < a then pinf else ninf
  | fin a, ninf => if a = 0 then nan else if 0 < a then ninf else pinf
  | pinf, pinf => pinf
  | pinf, ninf => ninf
  | ninf, pinf => ninf
  | ninf, ninf => pinf

/-- Conversion of a value to the format `f` (of a `double` to a `float`). -/
def toF (f : Format) : Dbl → Dbl
  | fin a => round f a
  | x => x

/-- Addition of doubles. -/
def add (a b : Dbl) : Dbl := addF binary64 a b

/-- Division of doubles. -/
def div (a b : Dbl) : Dbl := divF binary64 a b

/-- Subtraction of doubles. -/
def sub (a b : Dbl) : Dbl := subF binary64 a b

/-- Multiplication of doubles. -/
def mul (a b : Dbl) : Dbl := mulF binary64 a b

end Dbl

/-! ## TestConfig and the profile table (`TestConfigTemplate.h`) -/

/-- The `TestConfig` record: the fields in the order of the aggregate initialisers of
`TestConfigTemplate.h`. -/
structure TestConfig where
  start_size : Int
  max_size : Int
  incr_size : Int
  buff_size : Int
  min_test_time_ms : Int
  concurrency : Int
  label : String
  deriving DecidableEq

/-- The six numeric fields of a configuration, in the order of the profile table. -/
def TestConfig.params (c : TestConfig) : Int × Int × Int × Int × Int × Int :=
  (c.start_size, c.max_size, c.incr_size, c.buff_size, c.min_test_time_ms, c.concurrency)

def preflightConfigDownload : TestConfig :=
  ⟨600000, 2000000, 125000, 4096, 10000, 2, "Preflight check"⟩

def slowConfigDownload : TestConfig :=
  ⟨100000, 5000000, 100000, 4096, 20000, 2,
    "Very-slow-line line type detected: profile selected slowband"⟩

def narrowConfigDownload : TestConfig :=
  ⟨1000000, 100000000, 500000, 16384, 20000, 4,
    "Buffering-lover line type detected: profile selected narrowband"⟩

def broadbandConfigDownload : TestConfig :=
  ⟨2500000, 100000000, 750000, 65536, 20000, 16,
    "Broadband line type detected: profile selected broadband"⟩

def fiberConfigDownload : TestConfig :=
  ⟨5000000, 100000000, 1000000, 131072, 20000, 32,
    "Fiber / Lan line type detected: profile selected fiber"⟩

def slowConfigUpload : TestConfig :=
  ⟨50000, 3500000, 50000, 4096, 20000, 2,
    "Very-slow-line line type detected: profile selected slowband"⟩

def narrowConfigUpload : TestConfig :=
  ⟨500000, 70000000, 250000, 16384, 20000, 4,
    "Buffering-lover line type detected: profile selected narrowband"⟩

def broadbandConfigUpload : TestConfig :=
  ⟨1250000, 70000000, 375000, 65536, 20000, 8,
    "Broadband line type detected: profile selected broadband"⟩

def fiberConfigUpload : TestConfig :=
  ⟨2500000, 70000000, 500000, 131072, 20000, 16,
    "Fiber / Lan line type detected: profile selected fiber"⟩

/-- The function `testConfigSelector`.  Both output parameters are overwritten before they
are read, so the result is the pair `(uploadConfig, downloadConfig)` after the call. -/
def testConfigSelector (preSpeed : Dbl) : TestConfig × TestConfig :=
  let uploadConfig := slowConfigUpload
  let downloadConfig := slowConfigDownload
  if Dbl.gt preSpeed (Dbl.ofInt 4) && Dbl.le preSpeed (Dbl.ofInt 30) then
    (narrowConfigUpload, narrowConfigDownload)
  else if Dbl.gt preSpeed (Dbl.ofInt 30) && Dbl.lt preSpeed (Dbl.ofInt 150) then
    (broadbandConfigUpload, broadbandConfigDownload)
  else if Dbl.ge preSpeed (Dbl.ofInt 150) then
    (fiberConfigUpload, fiberConfigDownload)
  else
    (uploadConfig, downloadConfig)

/-! ## Strings, sockets and the environment -/

/-- Largest value of a C `long` (LP64). -/
def LONG_MAX : Int := 9223372036854775807

/-- Number of values of `size_t`. -/
def SIZE_MOD : Nat := 2 ^ 64

/-- The constant `std::string::npos`. -/
def npos : Nat := SIZE_MOD - 1

/-- The call `s.find(c)`: the index of the first occurrence of `c`, or `npos`. -/
def find (s : List Char) (c : Char) : Nat :=
  if c ∈ s then s.indexOf c else npos

/-- The call `s.substr(pos, count)` for `pos <= s.length()`: the characters from `pos`
on, at most `count` of them.  (`hostport_substr_pos_le` shows that the only call with a
computed position stays in range, so the out-of-range exception is never raised.) -/
def substr (s : List Char) (pos count : Nat) : List Char :=
  (s.drop pos).take count

/-- C `isspace` in the "C" locale. -/
def isspace (c : Char) : Bool :=
  c = ' ' || c = '\t' || c = '\n' || c = '\r' || c.toNat = 11 || c.toNat = 12

/-- The digit loop of `atoi`: accumulate decimal digits, stop at the first other
character. -/
def atoiDigits : List Char → Int → Int
  | [], acc => acc
  | c :: cs, acc =>
    if c.isDigit then atoiDigits cs (acc * 10 + ((c.toNat : Int) - 48)) else acc

/-- C `atoi`: skip white space, read an optional sign, then decimal digits; 0 when no
digit is found.  (A value outside the range of `int` is undefined in C; here the
digits are read as they stand.) -/
def atoi (s : List Char) : Int :=
  match s.dropWhile isspace with
  | '-' :: r => - atoiDigits r 0
  | '+' :: r => atoiDigits r 0
  | r => atoiDigits r 0

/-- A server record.  Only the fields that `processServerXMLNode` fills in. -/
structure ServerInfo where
  url : List Char
  lat : Dbl
  lon : Dbl
  name : List Char
  country : List Char
  country_code : List Char
  host : List Char
  id : Int
  sponsor : List Char
  distance : Dbl
  deriving DecidableEq

/-- A socket operation issued by the client, as it appears in the log. -/
inductive SockOp where
  | socket (ret : Int)
  | dial (fd : Int) (port : Int)
  | write (fd : Int) (data : List Char)
  | close (fd : Int)
  deriving DecidableEq

/-- What lies outside the program for one client: the operating system and the peer.

* `socketRet`: the value `socket()` returns;
* `resolved`: whether name resolution succeeds;
* `dialRet`: the value `::connect` returns;
* `wret k len`: the value the `k`-th call of `write` returns when asked for `len` bytes;
* `input`: the bytes the peer still sends, in order; a `read` at the end returns `< 1`;
* `strtof`: the float extraction of the C++ library (`stream >> float`), not part of
  the repository and taken as a parameter: for the characters it is given, the value it
  stores and whether it succeeds (on text that is no number it stores 0 and fails, on a
  number out of range it stores the largest value and fails);
* `nwrites`, `log`: the number of `write` calls and the socket operations so far. -/
structure Net where
  socketRet : Int
  resolved : Bool
  dialRet : Int
  wret : Nat → Nat → Int
  input : List Char
  strtof : List Char → Dbl × Bool
  nwrites : Nat
  log : List SockOp

/-- The system call `write(fd, data, len)` with `len = data.length`. -/
def Net.write (net : Net) (fd : Int) (data : List Char) : Int × Net :=
  (net.wret net.nwrites data.length,
    { net with nwrites := net.nwrites + 1, log := net.log ++ [SockOp.write fd data] })

/-- The system call `::close(fd)`. -/
def Net.close (net : Net) (fd : Int) : Net :=
  { net with log := net.log ++ [SockOp.close fd] }

/-! ## The protocol client (`SpeedTestClient.cpp`) -/

/-- The state of a `SpeedTestClient` object. -/
structure SpeedTestClient where
  mServerInfo : ServerInfo
  mSocketFd : Int
  mServerVersion : Dbl
  deriving DecidableEq

namespace SpeedTestClient

/-- The constructor: no socket, version `-1.0`. -/
def create (serverInfo : ServerInfo) : SpeedTestClient :=
  ⟨serverInfo, 0, Dbl.fin (-1)⟩

/-- The function `SpeedTestClient::hostport`, on the host string.  The arithmetic on
`found` is that of `size_t`. -/
def hostport (targetHost : List Char) : List Char × Int :=
  let found := find targetHost ':'
  let host := substr targetHost 0 found
  let port := substr targetHost ((found + 1) % SIZE_MOD)
    ((targetHost.length + SIZE_MOD - found) % SIZE_MOD)
  (host, atoi port)

/-- The function `SpeedTestClient::writeLine`. -/
def writeLine (net : Net) (fd : Int) (buffer : List Char) : Bool × Net :=
  if fd = 0 then (false, net)
  else if buffer.length = 0 then (false, net)
  else
    let buff_copy := if '\n' ∈ buffer then buffer else buffer ++ ['\n']
    let r := net.write fd buff_copy
    (decide (r.1 = (buff_copy.length : Int)), r.2)

/-- The byte loop of `readLine`: `(line ended, buffer, remaining input)`. -/
def readLineLoop : List Char → List Char → Bool × List Char × List Char
  | [], buffer => (false, buffer, [])
  | c :: rest, buffer =>
    if c = '\n' ∨ c = '\r' then (true, buffer, rest) else readLineLoop rest (buffer ++ [c])

/-- The function `SpeedTestClient::readLine`: the result, the buffer after the call and
the environment after the call. -/
def readLine (net : Net) (fd : Int) (buffer : List Char) : Bool × List Char × Net :=
  if fd = 0 then (false, buffer, net)
  else
    let r := readLineLoop net.input []
    if r.1 then (decide (r.2.1.length > 0), r.2.1, { net with input := r.2.2 })
    else (false, r.2.1, { net with input := r.2.2 })

/-- The function `SpeedTestClient::close`.  The member `mSocketFd` is not assigned. -/
def close (c : SpeedTestClient) (net : Net) : SpeedTestClient × Net :=
  if c.mSocketFd ≠ 0 then
    let w := writeLine net c.mSocketFd "QUIT".toList
    (c, w.2.close c.mSocketFd)
  else (c, net)

/-- The function `SpeedTestClient::mkSocket`. -/
def mkSocket (c : SpeedTestClient) (net : Net) : Bool × SpeedTestClient × Net :=
  let c := { c with mSocketFd := net.socketRet }
  let net := { net with log := net.log ++ [SockOp.socket net.socketRet] }
  if c.mSocketFd = 0 then (false, c, net)
  else
    let hostp := hostport c.mServerInfo.host
    if !net.resolved then (false, c, net)
    else
      let portno := hostp.2
      let net := { net with log := net.log ++ [SockOp.dial c.mSocketFd (portno % 65536)] }
      (decide (net.dialRet ≥ 0), c, net)

/-- The extraction `stream >> hello` of a `std::string`: skip white space, then take the
characters up to the next white space.  The result is the token and the rest. -/
def extractToken (s : List Char) : List Char × List Char :=
  let t := s.dropWhile isspace
  (t.takeWhile (fun ch => !isspace ch), t.dropWhile (fun ch => !isspace ch))

/-- The function `SpeedTestClient::connect`.  The statement
`reply_stream >> hello >> mServerVersion` stores a version only when characters other
than white space follow the first word. -/
def connect (c : SpeedTestClient) (net : Net) : Bool × SpeedTestClient × Net :=
  if c.mSocketFd ≠ 0 then (true, c, net)
  else
    let m := mkSocket c net
    if !m.1 then (m.1, m.2.1, m.2.2)
    else
      let c := m.2.1
      let w := writeLine m.2.2 c.mSocketFd "HI".toList
      if !w.1 then
        let r := close c w.2
        (false, r.1, r.2)
      else
        let rl := readLine w.2 c.mSocketFd []
        let net := rl.2.2
        if rl.1 then
          let tok := extractToken rl.2.1
          let hello := tok.1
          if hello = [] then
            -- the first extraction fails: the second one is not attempted
            let r := close c net
            (false, r.1, r.2)
          else if tok.2.dropWhile isspace = [] then
            -- nothing but white space is left: the stream is at its end, the second
            -- extraction fails before it stores anything
            let r := close c net
            (false, r.1, r.2)
          else
            let v := net.strtof (tok.2.dropWhile isspace)
            let c := { c with mServerVersion := v.1 }
            if v.2 = true ∧ hello = "HELLO".toList then (true, c, net)
            else
              let r := close c net
              (false, r.1, r.2)
        else
          let r := close c net
          (false, r.1, r.2)

/-- The function `SpeedTestClient::version`. -/
def version (c : SpeedTestClient) : Dbl := c.mServerVersion

/-- The command line of `upload`: `cmd << "UPLOAD " << size << "\n"`. -/
def uploadCmd (size : Int) : List Char :=
  "UPLOAD ".toList ++ (toString size).toList ++ ['\n']

/-- The buffer of `upload` after its initialisation loop; `rnd i` is the value of the
`i`-th call of `rand()`. -/
def uploadBuff (rnd : Nat → Nat) (chunk_size : Int) : List Char :=
  (List.range chunk_size.toNat).map (fun i => Char.ofNat (rnd i % 256))

/-- The write loop of `upload`, from `while (missing > 0)`.  The result is `none` when
the fuel runs out, and otherwise whether the loop ended without a short write. -/
def uploadLoop (fd : Int) (chunk_size : Int) :
    Nat → Int → List Char → Net → Option (Bool × Net)
  | 0, missing, _, net => if missing > 0 then none else some (true, net)
  | fuel + 1, missing, buff, net =>
    if missing > 0 then
      let len := if missing - chunk_size > 0 then chunk_size else missing
      let buff := if missing - chunk_size > 0 then buff
        else buff.set (missing - 1).toNat '\n'
      let r := net.write fd (buff.take len.toNat)
      if r.1 ≠ len then some (false, r.2)
      else uploadLoop fd chunk_size fuel (missing - r.1) buff r.2
    else some (true, net)

/-- The function `SpeedTestClient::upload`.  `elapsed` is the time the clock measures
between the two readings around the write loop.  The result is `none` when the fuel
runs out or the buffer cannot be allocated (`chunk_size < 0`), and otherwise the
return value, `millisec` and the environment after the call. -/
def upload (c : SpeedTestClient) (net : Net) (rnd : Nat → Nat) (elapsed : Int)
    (size chunk_size : Int) (fuel : Nat) : Option (Bool × Int × Net) :=
  let millisec := LONG_MAX
  let cmd := uploadCmd size
  let w := writeLine net c.mSocketFd cmd
  if !w.1 then some (false, millisec, w.2)
  else if chunk_size < 0 then none
  else
    let buff := uploadBuff rnd chunk_size
    let missing := size - (cmd.length : Int)
    match uploadLoop c.mSocketFd chunk_size fuel missing buff w.2 with
    | none => none
    | some (false, net) => some (false, millisec, net)
    | some (true, net) =>
      let millisec := elapsed
      let ss := "OK ".toList ++ (toString size).toList ++ [' ']
      let rl := readLine net c.mSocketFd []
      if !rl.1 then some (false, millisec, rl.2.2)
      else some (decide (substr rl.2.1 0 ss.length = ss), millisec, rl.2.2)

end SpeedTestClient

/-! ## Latency and jitter (`SpeedTest.cpp`) -/

namespace Dbl

/-- C `std::ceil`. -/
def ceil : Dbl → Dbl
  | fin q => fin (⌈q⌉ : Int)
  | x => x

/-- The conversion `(long) x`: truncation toward zero.  It is undefined (`none`) for
NaN, for the infinities and for values outside the range of `long`. -/
def toLong : Dbl → Option Int
  | fin q =>
    let t : Int := if 0 ≤ q then ⌊q⌋ else ⌈q⌉
    if -LONG_MAX - 1 ≤ t ∧ t ≤ LONG_MAX then some t else none
  | _ => none

/-- The order `std::sort` puts two doubles in: `a` may stand before `b` when `b < a` is
false. -/
def notGt (a b : Dbl) : Prop := lt b a = false

instance : DecidableRel notGt := fun a b => inferInstanceAs (Decidable (lt b a = false))

end Dbl

/-- Modelled from the spec: the constant `SPEED_TEST_LATENCY_SAMPLE_SIZE` of `SpeedTest.h`,
which is not among the sources; the spec gives the number of ping samples per candidate
as K = 10. -/
def SPEED_TEST_LATENCY_SAMPLE_SIZE : Int := 10

/-- The `for` loop of `testLatency`.  `ping i` is the outcome of the `i`-th call of
`client.ping` on this client: `none` when it returns false, `some ms` when it returns
true with `millisec = ms`.  Arguments: pings still to issue, index of the next ping,
`latency`.  Result: the return value and `latency`. -/
def testLatencyLoop (ping : Nat → Option Int) : Nat → Nat → Int → Bool × Int
  | 0, _, latency => (true, latency)
  | n + 1, i, latency =>
    match ping i with
    | some temp_latency =>
      testLatencyLoop ping n (i + 1) (if temp_latency < latency then temp_latency else latency)
    | none => (false, latency)

/-- The function `SpeedTest::testLatency`: the return value, `latency`, the client and
the environment after the call.  (The socket traffic of the pings is not logged.) -/
def testLatency (client : SpeedTestClient) (net : Net) (ping : Nat → Option Int)
    (sample_size : Int) (latency : Int) : Bool × Int × SpeedTestClient × Net :=
  let r := client.connect net
  if !r.1 then (false, latency, r.2.1, r.2.2)
  else
    let l := testLatencyLoop ping sample_size.toNat 0 LONG_MAX
    (l.1, l.2, r.2.1, r.2.2)

/-- The `for` loop of `jitter` on the state `(current_jitter, previous_ms, iter)`.
Arguments: pings still to issue, index of the next ping, state. -/
def jitterLoop (ping : Nat → Option Int) : Nat → Nat → Dbl × Int × Nat → Dbl × Int × Nat
  | 0, _, st => st
  | n + 1, i, (current_jitter, previous_ms, iter) =>
    match ping i with
    | some ms =>
      if previous_ms = LONG_MAX then
        jitterLoop ping n (i + 1) (current_jitter, ms, iter + 1)
      else
        jitterLoop ping n (i + 1)
          (Dbl.add current_jitter (Dbl.ofInt |previous_ms - ms|), previous_ms, iter + 1)
    | none => jitterLoop ping n (i + 1) (current_jitter, previous_ms, iter)

/-- The function `SpeedTest::jitter`: the return value and `result` after the call.  The
outcome is `none` when the conversion to `long` is undefined. -/
def jitter (server : ServerInfo) (net : Net) (ping : Nat → Option Int) (sample : Int)
    (result : Int) : Option (Bool × Int) :=
  let client := SpeedTestClient.create server
  let r := client.connect net
  if r.1 then
    let st := jitterLoop ping sample.toNat 0 (Dbl.fin 0, LONG_MAX, 0)
    -- client.close() changes neither the state of the loop nor the result
    match (Dbl.div st.1 (Dbl.ofInt st.2.2)).ceil.toLong with
    | some v => some (true, v)
    | none => none
  else some (false, result)

/-! ## Server selection (`SpeedTest.cpp`) -/

/-- The variables of `findBestServerWithin`, with the callbacks made so far.  The field
`measured` is a record, kept for the statements only, of the candidates whose latency test
returned true, each with the latency it measured. -/
structure FindState where
  bestServer : ServerInfo
  latency : Int
  i : Int
  callbacks : List Bool
  measured : List (ServerInfo × Int)

/-- The `for` loop of `findBestServerWithin` over the rest of the list.  Candidate `j`
talks to the environment `nets j` and its pings have the outcomes `pings j`. -/
def findLoop (mMinSupportedServer : Dbl) (nets : Nat → Net) (pings : Nat → Nat → Option Int) :
    List ServerInfo → Nat → FindState → FindState
  | [], _, st => st
  | server :: rest, j, st =>
    let client := SpeedTestClient.create server
    let r := client.connect (nets j)
    if !r.1 then
      findLoop mMinSupportedServer nets pings rest (j + 1)
        { st with callbacks := st.callbacks ++ [false] }
    else
      let client := r.2.1
      if Dbl.lt client.version mMinSupportedServer then
        findLoop mMinSupportedServer nets pings rest (j + 1)
          { st with callbacks := st.callbacks ++ [false] }
      else
        let t := testLatency client r.2.2 (pings j) SPEED_TEST_LATENCY_SAMPLE_SIZE LONG_MAX
        let current_latency := t.2.1
        let st1 : FindState :=
          if t.1 = true ∧ current_latency < st.latency then
            { st with latency := current_latency, bestServer := server }
          else st
        let st2 : FindState :=
          { st1 with
            callbacks := st1.callbacks ++ [true]
            measured := if t.1 then st1.measured ++ [(server, current_latency)]
              else st1.measured
            i := st1.i - 1 }
        if st.i < 0 then st2
        else findLoop mMinSupportedServer nets pings rest (j + 1) st2

/-- The function `SpeedTest::findBestServerWithin`.  Reading `serverList[0]` of an empty
vector is undefined: `none`. -/
def findBestServerWithin (mMinSupportedServer : Dbl) (serverList : List ServerInfo)
    (nets : Nat → Net) (pings : Nat → Nat → Option Int) (sample_size : Int) :
    Option FindState :=
  match serverList with
  | [] => none
  | first :: _ =>
    some (findLoop mMinSupportedServer nets pings serverList 0
      ⟨first, LONG_MAX, sample_size, [], []⟩)

/-! ## The throughput driver (`SpeedTest.cpp`) -/

/-- What lies outside the program for one worker of `execute`: the environment of its
client, the outcome `pfunc k size chunk = (ok, op_time)` of its `k`-th transfer, and the
milliseconds `elapsed k` the clock shows between `start` and the reading taken after the
`k`-th transfer. -/
structure WorkerEnv where
  net : Net
  pfunc : Nat → Int → Int → Bool × Int
  elapsed : Nat → Int

/-- The expression `(curr_size * 8) / (static_cast<double>(op_time) / 1000)`. -/
def metric (curr_size op_time : Int) : Dbl :=
  Dbl.div (Dbl.ofInt (curr_size * 8)) (Dbl.div (Dbl.ofInt op_time) (Dbl.ofInt 1000))

/-- What a worker has accumulated: `partial_results`, the callbacks it made and the sizes
it asked `pfunc` for, each in the order of the loop. -/
structure WorkerRun where
  partial_results : List Dbl
  callbacks : List Bool
  requested : List Int

/-- The `while (curr_size < max_size)` loop of a worker.  Arguments: fuel, the number `k`
of transfers made so far, `curr_size`, and what has been accumulated.  The result is
`none` when the fuel runs out before the loop ends.  (The variables `total_size` and
`total_time` are written and never read; they are left out.) -/
def workerLoop (config : TestConfig) (env : WorkerEnv) :
    Nat → Nat → Int → WorkerRun → Option WorkerRun
  | 0, _, curr_size, run => if curr_size < config.max_size then none else some run
  | fuel + 1, k, curr_size, run =>
    if curr_size < config.max_size then
      let r := env.pfunc k curr_size config.buff_size
      let run1 : WorkerRun :=
        { partial_results :=
            if r.1 then run.partial_results ++ [metric curr_size r.2] else run.partial_results
          callbacks := run.callbacks ++ [r.1]
          requested := run.requested ++ [curr_size] }
      if env.elapsed k > config.min_test_time_ms then some run1
      else workerLoop config env fuel (k + 1) (curr_size + config.incr_size) run1
    else some run

/-- The accumulation loop of a worker over `[begin + skip, end - drop)`: the pair
`(iter, real_sum)`. -/
def sumLoop (samples : List Dbl) : Nat × Dbl :=
  samples.foldl (fun acc x => (acc.1 + 1, Dbl.add acc.2 x)) (0, Dbl.fin 0)

/-- The body of one worker thread of `execute`.  The result is `none` when the fuel runs
out; otherwise the value the worker adds to `overall_speed` (`none` when it adds nothing)
and the run of its loop.  The library `std::sort` is read as insertion sort: doubles
among which there is no NaN have one ascending arrangement (`ascending_unique`), which
every sorting algorithm leaves; with a NaN among them C++ leaves the result of
`std::sort` undefined. -/
def worker (server : ServerInfo) (config : TestConfig) (env : WorkerEnv) (fuel : Nat) :
    Option (Option Dbl × WorkerRun) :=
  let spClient := SpeedTestClient.create server
  let r := spClient.connect env.net
  if r.1 then
    match workerLoop config env fuel 0 config.start_size ⟨[], [], []⟩ with
    | none => none
    | some run =>
      -- std::sort, with operator<
      let sorted := run.partial_results.insertionSort Dbl.notGt
      let skip := 0
      let drop := 0
      let s := sumLoop ((sorted.take (sorted.length - drop)).drop skip)
      some (some (Dbl.div s.2 (Dbl.ofInt s.1)), run)
  else some (none, ⟨[], [false], []⟩)

/-- The additions to `overall_speed` under the mutex, in the order `order` in which the
workers reach it. -/
def accumulate (contrib : Nat → Option Dbl) (order : List Nat) : Dbl :=
  order.foldl (fun overall_speed w =>
    match contrib w with
    | some x => Dbl.add overall_speed x
    | none => overall_speed) (Dbl.fin 0)

/-- The function `SpeedTest::execute` with `config.concurrency` workers; worker `w` runs
in the environment `envs w`, and `order` lists the workers in the order in which they
take the mutex.  The result is `none` when the fuel runs out in a worker; otherwise the
returned speed and the callbacks of each worker. -/
def execute (server : ServerInfo) (config : TestConfig) (envs : Nat → WorkerEnv)
    (order : List Nat) (fuel : Nat) : Option (Dbl × List (List Bool)) :=
  let workers := (List.range config.concurrency.toNat).map
    (fun w => worker server config (envs w) fuel)
  if workers.all Option.isSome then
    let contrib : Nat → Option Dbl := fun w =>
      match worker server config (envs w) fuel with
      | some out => out.1
      | none => none
    let overall_speed := accumulate contrib order
    some (Dbl.div (Dbl.div overall_speed (Dbl.ofInt 1024)) (Dbl.ofInt 1024),
      workers.filterMap (fun o => o.map (fun out => out.2.callbacks)))
  else none

/-! ## Great-circle distance (`SpeedTest.cpp`) -/

/-- The arithmetic in which `deg2rad` and `harversine` are evaluated.  The functions are
templates over the number type `T`; the structure lets the same definition be read over
the real numbers and over floating-point numbers.

* `ofRat`, `pi`: the constants `180`, `2`, `2.0`, `EARTH_RADIUS_KM` and `M_PI`;
* `add`, `sub`, `mul`, `div`: the operations on two values of type `T`;
* `wmul`, `wdiv`: the product and the quotient that C++ carries out in `double`, because
  one operand is the `double` `M_PI`, `2.0` or the result of such an operation;
* `toT`: the conversion of such a result to `T`, where the function returns;
* `sin`, `cos`, `asin`, `sqrt`: the functions of the C library at the type `T`. -/
structure Arith (α : Type) where
  ofRat : ℚ → α
  pi : α
  add : α → α → α
  sub : α → α → α
  mul : α → α → α
  div : α → α → α
  wmul : α → α → α
  wdiv : α → α → α
  toT : α → α
  sin : α → α
  cos : α → α
  asin : α → α
  sqrt : α → α

/-- Modelled from the spec: the macro `EARTH_RADIUS_KM` of `SpeedTest.h`, which is not
among the sources; the spec gives the Earth radius as 6371.0 km. -/
def EARTH_RADIUS_KM : ℚ := 6371

/-- The function `SpeedTest::deg2rad`: `n * M_PI / 180`, computed in `double` and
returned as a `T`. -/
def deg2rad {α : Type} (A : Arith α) (n : α) : α :=
  A.toT (A.wdiv (A.wmul n A.pi) (A.ofRat 180))

/-- The function `SpeedTest::harversine` on two points `(lat, lon)` in degrees.  The
differences, the squares and the library functions are at the type `T`; the final product
with `2.0 * EARTH_RADIUS_KM` is computed in `double` and returned as a `T`. -/
def harversine {α : Type} (A : Arith α) (n1 n2 : α × α) : α :=
  let lat1r := deg2rad A n1.1
  let lon1r := deg2rad A n1.2
  let lat2r := deg2rad A n2.1
  let lon2r := deg2rad A n2.2
  let u := A.sin (A.div (A.sub lat2r lat1r) (A.ofRat 2))
  let v := A.sin (A.div (A.sub lon2r lon1r) (A.ofRat 2))
  A.toT (A.wmul (A.wmul (A.ofRat 2) (A.ofRat EARTH_RADIUS_KM))
    (A.asin (A.sqrt (A.add (A.mul u u)
      (A.mul (A.mul (A.mul (A.cos lat1r) (A.cos lat2r)) v) v)))))

/-- The arithmetic of the real numbers, with `M_PI` read as the number pi. -/
noncomputable def realArith : Arith ℝ :=
  { ofRat := fun q => (q : ℝ)
    pi := Real.pi
    add := fun x y => x + y
    sub := fun x y => x - y
    mul := fun x y => x * y
    div := fun x y => x / y
    wmul := fun x y => x * y
    wdiv := fun x y => x / y
    toT := fun x => x
    sin := Real.sin
    cos := Real.cos
    asin := Real.arcsin
    sqrt := Real.sqrt }

/-- The constant `M_PI` of the C library: the double nearest to pi,
`884279719003555 / 2^48`. -/
def M_PI : ℚ := mkRat 884279719003555 281474976710656

/-- The functions of the C mathematics library that `harversine` calls, at the type `T`
(`sinf` and so on when `T` is `float`).  They are not part of the repository and are
taken as parameters. -/
structure Libm where
  sin : Dbl → Dbl
  cos : Dbl → Dbl
  asin : Dbl → Dbl
  sqrt : Dbl → Dbl

/-- The arithmetic of the floating-point type `T` of format `fmt` (`float` or `double`),
with the library functions `libm`.  The constants `180`, `2`, `2.0` and `6371.0` are
numbers of both formats. -/
def dblArith (fmt : Format) (libm : Libm) : Arith Dbl :=
  { ofRat := Dbl.fin
    pi := Dbl.fin M_PI
    add := Dbl.addF fmt
    sub := Dbl.subF fmt
    mul := Dbl.mulF fmt
    div := Dbl.divF fmt
    wmul := Dbl.mul
    wdiv := Dbl.div
    toT := Dbl.toF fmt
    sin := libm.sin
    cos := libm.cos
    asin := libm.asin
    sqrt := libm.sqrt }

/-! ## The catalogue loader (`SpeedTest.cpp`) -/

/-- The `IPInfo` record. -/
structure IPInfo where
  ip_address : List Char
  isp : List Char
  lat : Dbl
  lon : Dbl
  deriving DecidableEq

/-- The outcome of one call of `httpRequest`: the `CURLcode` (0 is `CURLE_OK`), the HTTP
status that `curl_easy_getinfo` reports afterwards, and the body written to the
stream. -/
structure HttpResult where
  code : Nat
  status : Int
  body : List Char
  deriving DecidableEq

/-- A node as the XML reader presents it: its name and its attributes. -/
structure XmlNode where
  name : List Char
  attrs : List (List Char × List Char)
  deriving DecidableEq

/-- The string macros of `SpeedTest.h` that the catalogue loader uses.  The header is not
among the sources, so they are parameters. -/
structure Macros where
  SPEED_TEST_IP_INFO_API_URL : List Char
  SPEED_TEST_SERVER_LIST_URL : List Char
  SPEED_TEST_API_URL : List Char

/-- What lies outside the program for the catalogue loader.

* `http url postdata`: the outcome of `httpRequest` for this URL and POST data;
* `allocOk`: whether `calloc` succeeds;
* `readerOk`: whether `xmlReaderForMemory` returns a reader;
* `xmlRead body`: the nodes for which `xmlTextReaderRead` returns 1, in order, and the
  value it returns after them (0 at the end of the document, negative on a parse error);
* `stof`: `std::stof` of the C++ library, `none` when it throws;
* `fmt`: the format of the fields `lat`, `lon` and `distance` of `IPInfo` and
  `ServerInfo` (`binary32` if they are `float`, `binary64` if they are `double`); the
  header that declares them is not among the sources;
* `libm`: the functions of the C mathematics library at that type;
* `sort`: the call `std::sort(target.begin(), target.end(), cmp)` of the C++ library with
  the comparison `a.distance < b.distance` of `fetchServers`.  The library is not part
  of the repository; what the C++ standard promises of it is `StdSort`. -/
structure FetchEnv where
  http : List Char → List Char → HttpResult
  allocOk : Bool
  readerOk : Bool
  xmlRead : List Char → List XmlNode × Int
  stof : List Char → Option Dbl
  fmt : Format
  libm : Libm
  sort : List ServerInfo → List ServerInfo

/-- The loop of `splitString`: `cur` is the token being read. -/
def splitLoop (separator : Char) : List Char → List Char → List (List Char)
  | [], cur => if cur = [] then [] else [cur]
  | c :: rest, cur =>
    if c = separator then
      (if cur = [] then splitLoop separator rest [] else cur :: splitLoop separator rest [])
    else splitLoop separator rest (cur ++ [c])

/-- The function `SpeedTest::splitString`: the non-empty pieces between separators. -/
def splitString (instr : List Char) (separator : Char) : List (List Char) :=
  if instr = [] then [] else splitLoop separator instr []

/-- The function `SpeedTest::parseQueryString`.  The `std::map` is a list of pairs in
which a later assignment stands before an earlier one. -/
def parseQueryString (query : List Char) : List (List Char × List Char) :=
  (splitString query '&').foldl (fun map p =>
    match splitString p '=' with
    | [k, v] => (k, v) :: map
    | _ => map) []

/-- The access `values[key]` of a `std::map`: the value last assigned, or the empty
string. -/
def mapGet (map : List (List Char × List Char)) (key : List Char) : List Char :=
  match map.lookup key with
  | some v => v
  | none => []

/-- The function `SpeedTest::ipInfo` on the member `mIpInfo` and the parameter `info`:
the return value, `info` and `mIpInfo` after the call; `none` when `std::stof`
throws. -/
def ipInfo (m : Macros) (env : FetchEnv) (mIpInfo info : IPInfo) :
    Option (Bool × IPInfo × IPInfo) :=
  if mIpInfo.ip_address ≠ [] then some (true, mIpInfo, mIpInfo)
  else
    let r := env.http m.SPEED_TEST_IP_INFO_API_URL []
    if r.code = 0 then
      let values := parseQueryString r.body
      match env.stof (mapGet values "lat".toList) with
      | none => none
      | some lat =>
        match env.stof (mapGet values "lon".toList) with
        | none => none
        | some lon =>
          let mIpInfo1 : IPInfo :=
            ⟨mapGet values "ip_address".toList, mapGet values "isp".toList, lat, lon⟩
          some (true, mIpInfo1, mIpInfo1)
    else some (false, info, mIpInfo)

/-- Modelled from the spec: the record `ServerInfo()`; the declaration of the type is not
among the sources, and the spec gives empty strings and defaults for what is missing. -/
def ServerInfo.empty : ServerInfo :=
  ⟨[], Dbl.fin 0, Dbl.fin 0, [], [], [], [], 0, [], Dbl.fin 0⟩

/-- The call `xmlTextReaderGetAttribute(reader, key)`: `none` is the null pointer. -/
def XmlNode.getAttribute (node : XmlNode) (key : List Char) : Option (List Char) :=
  node.attrs.lookup key

/-- The function `SpeedTest::processServerXMLNode`; `none` when `std::stof` throws. -/
def processServerXMLNode (stof : List Char → Option Dbl) (node : XmlNode) :
    Option ServerInfo :=
  if node.name ≠ "server".toList then some ServerInfo.empty
  else if node.attrs.length > 0 then
    let info := ServerInfo.empty
    let info := match node.getAttribute "url".toList with
      | some v => { info with url := info.url ++ v }
      | none => info
    match (match node.getAttribute "lat".toList with
      | some v => stof v
      | none => some info.lat) with
    | none => none
    | some lat =>
      match (match node.getAttribute "lon".toList with
        | some v => stof v
        | none => some info.lon) with
      | none => none
      | some lon =>
        let info := { info with lat := lat, lon := lon }
        let info := match node.getAttribute "name".toList with
          | some v => { info with name := info.name ++ v }
          | none => info
        let info := match node.getAttribute "country".toList with
          | some v => { info with country := info.country ++ v }
          | none => info
        let info := match node.getAttribute "cc".toList with
          | some v => { info with country_code := info.country_code ++ v }
          | none => info
        let info := match node.getAttribute "host".toList with
          | some v => { info with host := info.host ++ v }
          | none => info
        let info := match node.getAttribute "id".toList with
          | some v => { info with id := atoi v }
          | none => info
        let info := match node.getAttribute "sponsor".toList with
          | some v => { info with sponsor := info.sponsor ++ v }
          | none => info
        some info
  else some ServerInfo.empty

/-- The `while (ret == 1)` loop of `fetchServers` over the nodes the reader presents;
`none` when `std::stof` throws. -/
def readNodes (env : FetchEnv) (ipInfo : IPInfo) :
    List XmlNode → List ServerInfo → Option (List ServerInfo)
  | [], target => some target
  | node :: rest, target =>
    match processServerXMLNode env.stof node with
    | none => none
    | some info =>
      if info.url ≠ [] then
        readNodes env ipInfo rest (target ++ [{ info with
          distance := harversine (dblArith env.fmt env.libm) (ipInfo.lat, ipInfo.lon)
            (info.lat, info.lon) }])
      else readNodes env ipInfo rest target

/-- The comparison of the final `std::sort` read as an order: `a` may stand before `b`
when `b.distance < a.distance` is false.  A range is sorted with respect to the
comparison, in the words of the C++ standard, when this holds of every element and every
later one. -/
def ServerInfo.notFarther (a b : ServerInfo) : Prop :=
  Dbl.lt b.distance a.distance = false

instance : DecidableRel ServerInfo.notFarther :=
  fun a b => inferInstanceAs (Decidable (Dbl.lt b.distance a.distance = false))

/-- The function `SpeedTest::fetchServers`: the return value, `target`, `http_code` and
the member `mIpInfo` after the call; `none` when `std::stof` throws.  The parameter
`url` is not read by the function: the request goes to `SPEED_TEST_API_URL`.  The call
of `std::sort` is the parameter `env.sort`. -/
def fetchServers (m : Macros) (env : FetchEnv) (mIpInfo : IPInfo) (url : List Char)
    (http_code : Int) : Option (Bool × List ServerInfo × Int × IPInfo) :=
  let target : List ServerInfo := []
  let r := env.http m.SPEED_TEST_API_URL []
  if r.code = 0 then
    let http_code := r.status
    if http_code = 200 ∧ r.body ≠ [] then
      if !env.allocOk then some (false, target, http_code, mIpInfo)
      else if !env.readerOk then some (false, target, http_code, mIpInfo)
      else
        match ipInfo m env mIpInfo ⟨[], [], Dbl.fin 0, Dbl.fin 0⟩ with
        | none => none
        | some (false, _, mIpInfo1) => some (false, target, http_code, mIpInfo1)
        | some (true, info, mIpInfo1) =>
          let x := env.xmlRead r.body
          match readNodes env info x.1 target with
          | none => none
          | some target =>
            if x.2 ≠ 0 then some (false, target, http_code, mIpInfo1)
            else some (true, env.sort target, http_code, mIpInfo1)
    else some (true, env.sort target, http_code, mIpInfo)
  else some (true, env.sort target, http_code, mIpInfo)

/-- The function `SpeedTest::serverList` on the member `mServerList`: the list returned
(the member after the call) and `mIpInfo` after the call.  The return value of
`fetchServers` is not looked at. -/
def serverList (m : Macros) (env : FetchEnv) (mIpInfo : IPInfo)
    (mServerList : List ServerInfo) : Option (List ServerInfo × IPInfo) :=
  if mServerList ≠ [] then some (mServerList, mIpInfo)
  else
    match fetchServers m env mIpInfo m.SPEED_TEST_SERVER_LIST_URL 0 with
    | none => none
    | some out => some (out.2.1, out.2.2.2)

/-! ## Definitions used in the statements -/

/-- The sum of `|p_i - p_(i-1)|` over the consecutive values of a list. -/
def consecutiveDiffs : List Int → Int
  | a :: b :: rest => |b - a| + consecutiveDiffs (b :: rest)
  | _ => 0

/-- The jitter as the spec words it, for the values of the successful pings in order:
the sum of the absolute differences of consecutive values, divided by the number of
values, rounded up. -/
def specJitter (ps : List Int) : Int :=
  ⌈((consecutiveDiffs ps : Int) : ℚ) / (ps.length : ℚ)⌉

/-- What one candidate of `findBestServerWithin` measures, read off the same calls as the
loop makes: `some latency` when the candidate connects, meets the minimum server version
and its latency test returns true with that latency, `none` otherwise. -/
def measuredLatency (mMinSupportedServer : Dbl) (server : ServerInfo) (net : Net)
    (ping : Nat → Option Int) : Option Int :=
  let r := (SpeedTestClient.create server).connect net
  if r.1 = true ∧ Dbl.lt r.2.1.version mMinSupportedServer = false then
    let t := testLatency r.2.1 r.2.2 ping SPEED_TEST_LATENCY_SAMPLE_SIZE LONG_MAX
    if t.1 = true then some t.2.1 else none
  else none

/-- The invariant of the loop of `findBestServerWithin`: the best server and latency are
the first element and `LONG_MAX` while nothing has been measured, and afterwards a
measured pair with the smallest latency; the record `measured` holds exactly what the
candidates visited so far (one callback each) have measured. -/
def FindInv (mMinSupportedServer : Dbl) (serverList : List ServerInfo) (nets : Nat → Net)
    (pings : Nat → Nat → Option Int) (first : ServerInfo) (st : FindState) : Prop :=
  (st.measured = [] → st.bestServer = first ∧ st.latency = LONG_MAX) ∧
  (st.measured ≠ [] → (st.bestServer, st.latency) ∈ st.measured) ∧
  (∀ m ∈ st.measured, st.latency ≤ m.2) ∧
  (∀ m ∈ st.measured, m.2 < LONG_MAX) ∧
  (∀ m ∈ st.measured, ∃ j, serverList[j]? = some m.1 ∧
    measuredLatency mMinSupportedServer m.1 (nets j) (pings j) = some m.2) ∧
  (∀ (k : Nat) (s : ServerInfo) (l : Int), k < st.callbacks.length →
    serverList[k]? = some s →
    measuredLatency mMinSupportedServer s (nets k) (pings k) = some l → (s, l) ∈ st.measured)

/-- The size of the `k`-th transfer of a worker: `start_size + k * incr_size`. -/
def attemptSize (config : TestConfig) (k : Nat) : Int :=
  config.start_size + (k : Int) * config.incr_size

/-- Whether the `k`-th transfer of a worker succeeds. -/
def attemptOk (config : TestConfig) (env : WorkerEnv) (k : Nat) : Bool :=
  (env.pfunc k (attemptSize config k) config.buff_size).1

/-- The `op_time` of the `k`-th transfer of a worker. -/
def attemptTime (config : TestConfig) (env : WorkerEnv) (k : Nat) : Int :=
  (env.pfunc k (attemptSize config k) config.buff_size).2

/-- The sample the `k`-th transfer of a worker adds to `partial_results`, if any. -/
def attemptSample (config : TestConfig) (env : WorkerEnv) (k : Nat) : Option Dbl :=
  if attemptOk config env k then
    some (metric (attemptSize config k) (attemptTime config env k))
  else none

/-- The loop of a worker makes exactly `n` transfers: each of them starts below
`max_size`, the clock stays within `min_test_time_ms` after each but the last, and after
the last either the clock exceeds `min_test_time_ms` or the size has reached `max_size`. -/
def stopsAfter (config : TestConfig) (env : WorkerEnv) (n : Nat) : Prop :=
  (∀ k, k < n → attemptSize config k < config.max_size) ∧
  (∀ k, k + 1 < n → env.elapsed k ≤ config.min_test_time_ms) ∧
  ((0 < n ∧ env.elapsed (n - 1) > config.min_test_time_ms) ∨
    config.max_size ≤ attemptSize config n)

/-- The sum of a list of doubles in double arithmetic, added up from `0.0` in the order
of the list. -/
def Dbl.sum (l : List Dbl) : Dbl :=
  l.foldl Dbl.add (Dbl.fin 0)

/-- The samples of a worker in double arithmetic, in the order in which the loop records
them: one for each successful transfer among the `n` it made. -/
def dblSamples (config : TestConfig) (env : WorkerEnv) (n : Nat) : List Dbl :=
  (List.range n).filterMap (attemptSample config env)

/-- The samples of a worker in the order in which they are added up: the order in which
`std::sort` leaves them. -/
def sortedSamples (config : TestConfig) (env : WorkerEnv) (n : Nat) : List Dbl :=
  (dblSamples config env n).insertionSort Dbl.notGt

/-- The mean of the samples of a worker in double arithmetic: the samples are added up
from `0.0` in the order of `sortedSamples`, and the sum is divided by their number. -/
def dblWorkerMean (config : TestConfig) (env : WorkerEnv) (n : Nat) : Dbl :=
  Dbl.div (Dbl.sum (sortedSamples config env n))
    (Dbl.ofInt (sortedSamples config env n).length)

/-- The bound of the spec on the number of transfers of a worker:
`ceil((max_size - start_size) / incr_size)`, and 0 when that is negative. -/
def attemptBound (config : TestConfig) : Nat :=
  (⌈((config.max_size - config.start_size : Int) : ℚ) / (config.incr_size : ℚ)⌉ : Int).toNat

/-- The parsed `server` records whose url attribute is not empty, in the order of the
document, each with its distance set to the `harversine` distance from the caller's
`(lat, lon)`. -/
def acceptedRecords (env : FetchEnv) (ip : IPInfo) (nodes : List XmlNode) : List ServerInfo :=
  nodes.filterMap (fun node =>
    match processServerXMLNode env.stof node with
    | some info =>
      if info.url ≠ [] then
        some { info with
          distance := harversine (dblArith env.fmt env.libm) (ip.lat, ip.lon)
            (info.lat, info.lon) }
      else none
    | none => none)

/-- The list is in non-decreasing order of distance: each record is at most as far as
every record after it, in the comparison `<=` of floating-point numbers. -/
def sortedByDistance (l : List ServerInfo) : Prop :=
  l.Pairwise (fun a b => Dbl.le a.distance b.distance = true)

/-- What the C++ standard promises of `std::sort` with the comparison of `fetchServers`:
when the comparison is a strict weak order on the records, which it is when no distance
is NaN, the result is a permutation that is sorted with respect to the comparison.  With
a NaN distance the standard promises nothing. -/
def StdSort (sort : List ServerInfo → List ServerInfo) : Prop :=
  ∀ l : List ServerInfo, (∀ s ∈ l, s.distance ≠ Dbl.nan) →
    (sort l).Perm l ∧ (sort l).Pairwise ServerInfo.notFarther

/-! ## Concrete inputs used in the statements -/

/-- A server record with the host `example.com:8080`. -/
def exampleServer : ServerInfo :=
  ⟨"http://example.com/upload.php".toList, Dbl.fin 0, Dbl.fin 0, "Example".toList,
    "Nowhere".toList, "NW".toList, "example.com:8080".toList, 1, "Sponsor".toList, Dbl.fin 0⟩

/-- The library's reading of the texts used below: `2.4 x` is the float nearest to 2.4,
`5033165 / 2^21`; everything else is no number. -/
def exampleStrtof (s : List Char) : Dbl × Bool :=
  if s = "2.4 x".toList then (Dbl.fin (mkRat 5033165 2097152), true) else (Dbl.fin 0, false)

/-- An environment in which everything succeeds: `socket()` returns 3, the name resolves,
the dial succeeds, every `write` is complete, and the peer answers `HELLO 2.4 x`. -/
def helloNet : Net :=
  ⟨3, true, 0, fun _ len => (len : Int), "HELLO 2.4 x\n".toList, exampleStrtof, 0, []⟩

/-- The ping outcomes of a client all of whose pings succeed, with the values of the list;
pings beyond the list fail. -/
def pingsOf (ms : List Int) : Nat → Option Int := fun i => ms[i]?

/-- The client of `exampleServer` after `connect` in the environment `helloNet`. -/
def connectedExample : Bool × SpeedTestClient × Net :=
  (SpeedTestClient.create exampleServer).connect helloNet

/-- The connected client after one call of `close`. -/
def closedOnce : SpeedTestClient × Net :=
  connectedExample.2.1.close connectedExample.2.2

/-- The connected client after two calls of `close`. -/
def closedTwice : SpeedTestClient × Net :=
  closedOnce.1.close closedOnce.2

/-- Three server records, nearest first. -/
def threeServers : List ServerInfo :=
  [exampleServer,
    { exampleServer with id := 2, host := "second.example.com:8080".toList },
    { exampleServer with id := 3, host := "third.example.com:8080".toList }]

/-- Environments for the candidates of `threeServers`: the first server refuses the
connection, the others answer as in `helloNet`. -/
def exampleNets : Nat → Net :=
  fun j => if j = 0 then { helloNet with dialRet := -1 } else helloNet

/-- Ping outcomes for the candidates of `threeServers`: every ping of candidate `j`
succeeds and takes `30 - j` milliseconds. -/
def examplePings : Nat → Nat → Option Int :=
  fun j _ => some (30 - (j : Int))

/-- A worker environment in which the client connects and every transfer succeeds and
takes one second, so that the clock shows `1000 * (k + 1)` ms after the `k`-th one. -/
def steadyEnv : WorkerEnv :=
  ⟨helloNet, fun _ _ _ => (true, 1000), fun k => 1000 * ((k : Int) + 1)⟩

/-- A worker environment in which the client connects and every transfer fails at once
(`millisec` is left at `LONG_MAX`). -/
def failingEnv : WorkerEnv :=
  ⟨helloNet, fun _ _ _ => (false, LONG_MAX), fun _ => 0⟩

/-- The environment `helloNet` with a peer that refuses the connection (`::connect`
returns -1). -/
def refusingNet : Net :=
  { helloNet with dialRet := -1 }

/-- The environment `helloNet` with a peer that answers `BYE` to `HI`. -/
def byeNet : Net :=
  { helloNet with input := "BYE\n".toList }

/-- The environment `helloNet` with a peer whose next bytes are an empty line followed by
`PONG 1`. -/
def emptyLineNet : Net :=
  { helloNet with input := "\nPONG 1\n".toList }

/-- Addresses for the three requests of the catalogue loader. -/
def exampleMacros : Macros :=
  ⟨"http://speedtest.example.net/api/ipaddress.php".toList,
   "http://speedtest.example.net/speedtest-servers.php".toList,
   "http://speedtest.example.net/api/api.php".toList⟩

/-- The `float` nearest to `M_PI`: `13176795 / 2^22`. -/
def PI_F : ℚ := mkRat 13176795 4194304

/-- Half of `PI_F`, which is also the `float` nearest to half of pi: `13176795 / 2^23`. -/
def HALF_PI_F : ℚ := mkRat 13176795 8388608

/-- The mathematics library on `float`, at the arguments met below, where its values
are the floats nearest to the exact ones: `sinf 0 = 0`, `sinf HALF_PI_F = 1`,
`cosf 0 = 1`, `sqrtf 0 = 0`, `sqrtf 1 = 1`, `asinf 0 = 0`, `asinf 1 = HALF_PI_F`; NaN
stands for every other value. -/
def exampleLibm : Libm where
  sin := fun x =>
    if x = Dbl.fin 0 then Dbl.fin 0
    else if x = Dbl.fin HALF_PI_F then Dbl.fin 1 else Dbl.nan
  cos := fun x => if x = Dbl.fin 0 then Dbl.fin 1 else Dbl.nan
  asin := fun x =>
    if x = Dbl.fin 0 then Dbl.fin 0
    else if x = Dbl.fin 1 then Dbl.fin HALF_PI_F else Dbl.nan
  sqrt := fun x =>
    if x = Dbl.fin 0 then Dbl.fin 0 else if x = Dbl.fin 1 then Dbl.fin 1 else Dbl.nan

/-- The step `__unguarded_linear_insert` of the insertion sort of libstdc++: walking
from the back of the part sorted so far, `a` passes every record that it compares less
than.  The argument and the result are that part in reverse. -/
def linearInsert (a : ServerInfo) : List ServerInfo → List ServerInfo
  | [] => [a]
  | b :: rest =>
    if Dbl.lt a.distance b.distance then b :: linearInsert a rest else a :: b :: rest

/-- One pass of the loop of `__insertion_sort` of libstdc++ on the part sorted so far:
a record that compares less than the first one is moved to the front, and every other
record is inserted from the back. -/
def insertionStep (sorted : List ServerInfo) (a : ServerInfo) : List ServerInfo :=
  match sorted with
  | [] => [a]
  | first :: _ =>
    if Dbl.lt a.distance first.distance then a :: sorted
    else (linearInsert a sorted.reverse).reverse

/-- An implementation of `std::sort` with the comparison of `fetchServers`: the
insertion sort that libstdc++ applies to a range of fewer than 16 elements. -/
def exampleSort (l : List ServerInfo) : List ServerInfo :=
  l.foldl insertionStep []

/-- A `std::stof` for the texts used below: it throws on the empty text, reads `nan` as
NaN and reads a whole number as `atoi` does. -/
def exampleStof (s : List Char) : Option Dbl :=
  if s = [] then none
  else if s = "nan".toList then some Dbl.nan
  else some (Dbl.fin (atoi s))

/-- The element that encloses the catalogue; it is not a `server` element. -/
def settingsNode : XmlNode := ⟨"settings".toList, []⟩

/-- A server at latitude 0, longitude 180. -/
def farNode : XmlNode :=
  ⟨"server".toList,
   [("url".toList, "http://far.example.net/upload.php".toList),
    ("lat".toList, "0".toList), ("lon".toList, "180".toList),
    ("name".toList, "Far".toList), ("country".toList, "Kiribati".toList),
    ("cc".toList, "KI".toList), ("sponsor".toList, "Far Net".toList),
    ("id".toList, "1".toList), ("host".toList, "far.example.net:8080".toList)]⟩

/-- A server at latitude 0, longitude 0. -/
def nearNode : XmlNode :=
  ⟨"server".toList,
   [("url".toList, "http://near.example.net/upload.php".toList),
    ("lat".toList, "0".toList), ("lon".toList, "0".toList),
    ("name".toList, "Near".toList), ("country".toList, "Ghana".toList),
    ("cc".toList, "GH".toList), ("sponsor".toList, "Near Net".toList),
    ("id".toList, "2".toList), ("host".toList, "near.example.net:8080".toList)]⟩

/-- A server whose latitude attribute reads `nan`. -/
def nanNode : XmlNode :=
  ⟨"server".toList,
   [("url".toList, "http://lost.example.net/upload.php".toList),
    ("lat".toList, "nan".toList), ("lon".toList, "0".toList),
    ("name".toList, "Lost".toList), ("country".toList, "Nowhere".toList),
    ("cc".toList, "ZZ".toList), ("sponsor".toList, "Lost Net".toList),
    ("id".toList, "3".toList), ("host".toList, "lost.example.net:8080".toList)]⟩

/-- A `server` element without a url attribute; `fetchServers` does not keep it. -/
def noUrlNode : XmlNode :=
  ⟨"server".toList, [("lat".toList, "0".toList), ("lon".toList, "0".toList),
    ("id".toList, "4".toList)]⟩

/-- The record that `processServerXMLNode` makes of `farNode`, with its distance from
latitude 0, longitude 0 as `harversine` computes it on floats: 20015.087890625. -/
def farRecord : ServerInfo :=
  ⟨"http://far.example.net/upload.php".toList, Dbl.fin 0, Dbl.fin 180, "Far".toList,
   "Kiribati".toList, "KI".toList, "far.example.net:8080".toList, 1, "Far Net".toList,
   Dbl.fin (mkRat 10247725 512)⟩

/-- The record that `processServerXMLNode` makes of `nearNode`, with its distance from
latitude 0, longitude 0. -/
def nearRecord : ServerInfo :=
  ⟨"http://near.example.net/upload.php".toList, Dbl.fin 0, Dbl.fin 0, "Near".toList,
   "Ghana".toList, "GH".toList, "near.example.net:8080".toList, 2, "Near Net".toList,
   Dbl.fin 0⟩

/-- The record that `processServerXMLNode` makes of `nanNode`; its distance is NaN. -/
def nanRecord : ServerInfo :=
  ⟨"http://lost.example.net/upload.php".toList, Dbl.nan, Dbl.fin 0, "Lost".toList,
   "Nowhere".toList, "ZZ".toList, "lost.example.net:8080".toList, 3, "Lost Net".toList,
   Dbl.nan⟩

/-- The caller as the address service reports it: latitude 0, longitude 0. -/
def exampleIpInfo : IPInfo := ⟨"192.0.2.1".toList, "Example".toList, Dbl.fin 0, Dbl.fin 0⟩

/-- An environment in which every request succeeds with status 200, the address service
reports `exampleIpInfo`, the catalogue document reads as `nodes` with the last return
value `ret` of `xmlTextReaderRead`, and the coordinates and distances are floats. -/
def catalogueEnv (nodes : List XmlNode) (ret : Int) : FetchEnv where
  http := fun url _ =>
    if url = exampleMacros.SPEED_TEST_IP_INFO_API_URL then
      ⟨0, 200, "ip_address=192.0.2.1&isp=Example&lat=0&lon=0".toList⟩
    else ⟨0, 200, "<settings><servers>".toList⟩
  allocOk := true
  readerOk := true
  xmlRead := fun _ => (nodes, ret)
  stof := exampleStof
  fmt := binary32
  libm := exampleLibm
  sort := exampleSort

/-- An environment in which every request fails in transport (`CURLE_COULDNT_CONNECT`). -/
def offlineEnv : FetchEnv :=
  { catalogueEnv [] 0 with http := fun _ _ => ⟨7, 0, []⟩ }

/-- An environment in which the catalogue request is answered with the given status and
body. -/
def answerEnv (status : Int) (body : List Char) : FetchEnv :=
  { catalogueEnv [settingsNode, farNode, nearNode] 0 with
    http := fun url _ =>
      if url = exampleMacros.SPEED_TEST_IP_INFO_API_URL then
        ⟨0, 200, "ip_address=192.0.2.1&isp=Example&lat=0&lon=0".toList⟩
      else ⟨0, status, body⟩ }

/-- The member `mIpInfo` before the first call of `ipInfo`: no address is cached. -/
def noIpInfo : IPInfo := ⟨[], [], Dbl.fin 0, Dbl.fin 0⟩

/-- A complete catalogue document: two servers and an element without url. -/
def completeNodes : List XmlNode := [settingsNode, farNode, noUrlNode, nearNode]

/-- A catalogue document that breaks off after two servers; the reader delivers the
elements before the error and then returns -1. -/
def truncatedNodes : List XmlNode := [settingsNode, farNode, nearNode]

/-- A complete catalogue document in which one server has the latitude `nan`. -/
def nanNodes : List XmlNode := [settingsNode, farNode, nanNode, nearNode]

end SpeedTest

/-! # Theorems -/

namespace SpeedTest
open SpeedTestClient

/-! ## Rounding -/

theorem log_eq_of_bounds (x : ℚ) (e : Int) (h1 : (2 : ℚ) ^ e ≤ x)
    (h2 : x < (2 : ℚ) ^ (e + 1)) : Int.log 2 x = e := by
  have hpos : 0 < x := lt_of_lt_of_le (by positivity) h1
  have a : e ≤ Int.log 2 x :=
    (Int.zpow_le_iff_le_log (by norm_num) hpos).mp (by exact_mod_cast h1)
  have b : Int.log 2 x < e + 1 :=
    (Int.lt_zpow_iff_log_lt (by norm_num) hpos).mp (by exact_mod_cast h2)
  omega

theorem roundHalfEven_eq (x : ℚ) (m : Int) (h : |x - m| < 1 / 2) : roundHalfEven x = m := by
  have h2 := abs_lt.mp h
  unfold roundHalfEven
  by_cases hc : (m : ℚ) ≤ x
  · have hf : ⌊x⌋ = m := by
      rw [Int.floor_eq_iff]; constructor
      · exact hc
      · linarith [h2.2]
    rw [hf, if_pos (by linarith [h2.2])]
  · have hf : ⌊x⌋ = m - 1 := by
      rw [Int.floor_eq_iff]; push_cast; constructor
      · linarith [h2.1]
      · push_neg at hc; linarith
    rw [hf]
    push_cast
    rw [if_neg (by linarith [h2.1]), if_pos (by linarith [h2.1])]
    ring

/-- Evaluation of a rounding: `q` lies in the binade of exponent `e` and within half a
unit in the last place of the number `m * 2^(max e emin - (prec - 1))` of the format. -/
theorem round_eq (f : Format) (q : ℚ) (e m : Int)
    (h1 : (2 : ℚ) ^ e ≤ |q|) (h2 : |q| < (2 : ℚ) ^ (e + 1))
    (hm : |q / (2 : ℚ) ^ (max e f.emin - ((f.prec : Int) - 1)) - m| < 1 / 2)
    (hmax : |(m : ℚ) * (2 : ℚ) ^ (max e f.emin - ((f.prec : Int) - 1))| <
      (2 : ℚ) ^ (f.emax + 1)) :
    Dbl.round f q =
      Dbl.fin ((m : ℚ) * (2 : ℚ) ^ (max e f.emin - ((f.prec : Int) - 1))) := by
  have hq : q ≠ 0 := by
    intro h0
    rw [h0, abs_zero] at h1
    exact absurd h1 (not_le.mpr (by positivity))
  have hu : f.ulp q = (2 : ℚ) ^ (max e f.emin - ((f.prec : Int) - 1)) := by
    unfold Format.ulp
    rw [log_eq_of_bounds |q| e h1 h2]
  unfold Dbl.round
  rw [if_neg hq]
  simp only [hu, roundHalfEven_eq _ m hm]
  rw [if_neg (not_le.mpr hmax)]

/-- Evaluation of the rounding of a positive number in the normal range: `q` lies in the
binade of exponent `e`, and `r = m * 2^(e - (prec - 1))` is within half a unit in the
last place of `q`. -/
theorem round_pos (f : Format) (q r : ℚ) (e m : Int) (he : f.emin ≤ e)
    (h1 : (2 : ℚ) ^ e ≤ q) (h2 : q < (2 : ℚ) ^ (e + 1))
    (hr : r = (m : ℚ) * (2 : ℚ) ^ (e - ((f.prec : Int) - 1)))
    (hlo : 2 * r - (2 : ℚ) ^ (e - ((f.prec : Int) - 1)) < 2 * q)
    (hhi : 2 * q < 2 * r + (2 : ℚ) ^ (e - ((f.prec : Int) - 1)))
    (hmax : r < (2 : ℚ) ^ (f.emax + 1)) :
    Dbl.round f q = Dbl.fin r := by
  have hqpos : 0 < q := lt_of_lt_of_le (by positivity) h1
  have hupos : (0 : ℚ) < (2 : ℚ) ^ (e - ((f.prec : Int) - 1)) := by positivity
  have hmx : max e f.emin = e := max_eq_left he
  have hrpos : 0 ≤ r := by
    by_contra hneg
    push_neg at hneg
    have hmneg : (m : ℚ) < 0 := by
      by_contra hm0
      push_neg at hm0
      have : 0 ≤ (m : ℚ) * (2 : ℚ) ^ (e - ((f.prec : Int) - 1)) := mul_nonneg hm0 hupos.le
      linarith
    have hm1 : (m : ℚ) ≤ -1 := by
      have : m ≤ -1 := by
        have : m < 0 := by exact_mod_cast hmneg
        omega
      exact_mod_cast this
    have : r ≤ -(2 : ℚ) ^ (e - ((f.prec : Int) - 1)) := by
      rw [hr]; nlinarith
    linarith
  have h := round_eq f q e m (by rwa [abs_of_pos hqpos]) (by rwa [abs_of_pos hqpos])
    (by
      rw [hmx, abs_lt]
      constructor
      · rw [lt_sub_iff_add_lt, lt_div_iff₀ hupos]
        linarith
      · rw [sub_lt_iff_lt_add, div_lt_iff₀ hupos]
        linarith)
    (by
      rw [hmx, ← hr, abs_of_nonneg hrpos]; exact hmax)
  rw [h, hmx, ← hr]

theorem addF_fin (f : Format) (a b : ℚ) :
    Dbl.addF f (Dbl.fin a) (Dbl.fin b) = Dbl.round f (a + b) := rfl

theorem subF_fin (f : Format) (a b : ℚ) :
    Dbl.subF f (Dbl.fin a) (Dbl.fin b) = Dbl.round f (a + -b) := rfl

theorem mulF_fin (f : Format) (a b : ℚ) :
    Dbl.mulF f (Dbl.fin a) (Dbl.fin b) = Dbl.round f (a * b) := rfl

theorem divF_fin (f : Format) (a b : ℚ) (hb : b ≠ 0) :
    Dbl.divF f (Dbl.fin a) (Dbl.fin b) = Dbl.round f (a / b) := by
  simp [Dbl.divF, hb]

theorem div_fin (a b : ℚ) (hb : b ≠ 0) :
    Dbl.div (Dbl.fin a) (Dbl.fin b) = Dbl.round binary64 (a / b) :=
  divF_fin binary64 a b hb

theorem round_zero (f : Format) : Dbl.round f 0 = Dbl.fin 0 := by
  simp [Dbl.round]

theorem ofInt_zero : Dbl.ofInt 0 = Dbl.fin 0 := by
  simp [Dbl.ofInt, Dbl.round]

theorem ofInt_4 : Dbl.ofInt 4 = Dbl.fin 4 := by
  unfold Dbl.ofInt
  apply round_pos binary64 _ _ 2 (2 ^ 52) <;> norm_num [binary64]

theorem ofInt_30 : Dbl.ofInt 30 = Dbl.fin 30 := by
  unfold Dbl.ofInt
  apply round_pos binary64 _ _ 4 (15 * 2 ^ 49) <;> norm_num [binary64]

theorem ofInt_150 : Dbl.ofInt 150 = Dbl.fin 150 := by
  unfold Dbl.ofInt
  apply round_pos binary64 _ _ 7 (75 * 2 ^ 46) <;> norm_num [binary64]

theorem ofInt_1024 : Dbl.ofInt 1024 = Dbl.fin 1024 := by
  unfold Dbl.ofInt
  apply round_pos binary64 _ _ 10 (2 ^ 52) <;> norm_num [binary64]

/-- C1: for every preSpeed, `testConfigSelector` selects the slow pair when
preSpeed <= 4, the narrow pair when 4 < preSpeed <= 30, the broadband pair when
30 < preSpeed < 150 and the fiber pair when preSpeed >= 150, and the eight selected
configurations carry exactly the numeric values of the profile table. -/
theorem testConfigSelector_table (preSpeed : Dbl) :
    (Dbl.le preSpeed (Dbl.ofInt 4) = true →
      testConfigSelector preSpeed = (slowConfigUpload, slowConfigDownload)) ∧
    (Dbl.gt preSpeed (Dbl.ofInt 4) = true ∧ Dbl.le preSpeed (Dbl.ofInt 30) = true →
      testConfigSelector preSpeed = (narrowConfigUpload, narrowConfigDownload)) ∧
    (Dbl.gt preSpeed (Dbl.ofInt 30) = true ∧ Dbl.lt preSpeed (Dbl.ofInt 150) = true →
      testConfigSelector preSpeed = (broadbandConfigUpload, broadbandConfigDownload)) ∧
    (Dbl.ge preSpeed (Dbl.ofInt 150) = true →
      testConfigSelector preSpeed = (fiberConfigUpload, fiberConfigDownload)) ∧
    slowConfigDownload.params = (100000, 5000000, 100000, 4096, 20000, 2) ∧
    slowConfigUpload.params = (50000, 3500000, 50000, 4096, 20000, 2) ∧
    narrowConfigDownload.params = (1000000, 100000000, 500000, 16384, 20000, 4) ∧
    narrowConfigUpload.params = (500000, 70000000, 250000, 16384, 20000, 4) ∧
    broadbandConfigDownload.params = (2500000, 100000000, 750000, 65536, 20000, 16) ∧
    broadbandConfigUpload.params = (1250000, 70000000, 375000, 65536, 20000, 8) ∧
    fiberConfigDownload.params = (5000000, 100000000, 1000000, 131072, 20000, 32) ∧
    fiberConfigUpload.params = (2500000, 70000000, 500000, 131072, 20000, 16) := by
  refine ⟨?_, ?_, ?_, ?_, rfl, rfl, rfl, rfl, rfl, rfl, rfl, rfl⟩
  all_goals
    cases preSpeed with
    | fin q =>
      simp only [testConfigSelector, ofInt_4, ofInt_30, ofInt_150, Dbl.le, Dbl.lt, Dbl.gt,
        Dbl.ge, decide_eq_true_eq, Bool.and_eq_true]
      intro h
      split_ifs <;> first | rfl | (exfalso; push_cast at *; linarith [h.1, h.2]) | (exfalso; push_cast at *; linarith)
    | pinf => simp [testConfigSelector, ofInt_4, ofInt_30, ofInt_150, Dbl.le, Dbl.lt, Dbl.gt, Dbl.ge]
    | ninf => simp [testConfigSelector, ofInt_4, ofInt_30, ofInt_150, Dbl.le, Dbl.lt, Dbl.gt, Dbl.ge]
    | nan => simp [testConfigSelector, ofInt_4, ofInt_30, ofInt_150, Dbl.le, Dbl.lt, Dbl.gt, Dbl.ge]

/-- C1, at the four speeds of the spec: 2.5 selects slow, 30.0 narrow, 149.99
broadband and 150.0 fiber. -/
theorem testConfigSelector_table_witness :
    testConfigSelector (Dbl.fin (5 / 2)) = (slowConfigUpload, slowConfigDownload) ∧
    testConfigSelector (Dbl.fin 30) = (narrowConfigUpload, narrowConfigDownload) ∧
    testConfigSelector (Dbl.fin (14999 / 100)) =
      (broadbandConfigUpload, broadbandConfigDownload) ∧
    testConfigSelector (Dbl.fin 150) = (fiberConfigUpload, fiberConfigDownload) :=
  ⟨(testConfigSelector_table (Dbl.fin (5 / 2))).1
      (by simp only [ofInt_4, Dbl.le, decide_eq_true_eq]; norm_num),
   (testConfigSelector_table (Dbl.fin 30)).2.1
      (by simp only [ofInt_4, ofInt_30, Dbl.gt, Dbl.lt, Dbl.le, decide_eq_true_eq]; norm_num),
   (testConfigSelector_table (Dbl.fin (14999 / 100))).2.2.1
      (by simp only [ofInt_30, ofInt_150, Dbl.gt, Dbl.lt, decide_eq_true_eq]; norm_num),
   (testConfigSelector_table (Dbl.fin 150)).2.2.2.1
      (by simp only [ofInt_150, Dbl.ge, Dbl.le, decide_eq_true_eq]; norm_num)⟩

/-! ## hostport -/

theorem SIZE_MOD_eq : SIZE_MOD = 18446744073709551616 := by norm_num [SIZE_MOD]

/-- The arithmetic of `hostport` on `found` stays inside the host string: the position
passed to the second `substr` is at most the length of the string. -/
theorem hostport_substr_pos_le (targetHost : List Char) (hlen : targetHost.length < npos) :
    (find targetHost ':' + 1) % SIZE_MOD ≤ targetHost.length := by
  have hS := SIZE_MOD_eq
  unfold find
  split_ifs with h
  · have h1 : targetHost.indexOf ':' < targetHost.length := List.indexOf_lt_length.mpr h
    have h2 : targetHost.indexOf ':' + 1 < SIZE_MOD := by
      unfold npos at hlen; omega
    rw [Nat.mod_eq_of_lt h2]; omega
  · have : npos + 1 = SIZE_MOD := by unfold npos; omega
    rw [this, Nat.mod_self]; exact Nat.zero_le _

theorem digitChar_isDigit (m : Nat) (h : m < 10) :
    (Nat.digitChar m).isDigit = true ∧ ((Nat.digitChar m).toNat : Int) - 48 = m := by
  interval_cases m <;> exact ⟨by decide, by decide⟩

/-- Reading back the digits that `Nat.toDigitsCore` prints gives the number printed. -/
theorem atoiDigits_toDigitsCore : ∀ (fuel n : Nat) (ds : List Char), n < fuel →
    atoiDigits (Nat.toDigitsCore 10 fuel n ds) 0 = atoiDigits ds n := by
  intro fuel
  induction fuel with
  | zero => intro n ds h; omega
  | succ f ih =>
    intro n ds h
    have hd := digitChar_isDigit (n % 10) (Nat.mod_lt _ (by decide))
    simp only [Nat.toDigitsCore]
    split_ifs with h0
    · have hn : n % 10 = n := by omega
      rw [hn] at hd
      simp only [atoiDigits, hn, hd.1, if_true, hd.2]
      simp
    · rw [ih (n / 10) _ (by omega)]
      simp only [atoiDigits, hd.1, if_true, hd.2]
      congr 1
      have := Nat.div_add_mod n 10
      push_cast
      omega

theorem toDigitsCore_head : ∀ (fuel n : Nat) (ds : List Char),
    ∃ m t, m < 10 ∧ Nat.toDigitsCore 10 (fuel + 1) n ds = Nat.digitChar m :: t := by
  intro fuel
  induction fuel with
  | zero =>
    intro n ds
    refine ⟨n % 10, ds, Nat.mod_lt _ (by decide), ?_⟩
    simp [Nat.toDigitsCore]
  | succ f ih =>
    intro n ds
    rw [Nat.toDigitsCore]
    split_ifs with h0
    · exact ⟨n % 10, ds, Nat.mod_lt _ (by decide), rfl⟩
    · exact ih (n / 10) _

theorem atoi_digitChar_cons (m : Nat) (h : m < 10) (t : List Char) :
    atoi (Nat.digitChar m :: t) = atoiDigits (Nat.digitChar m :: t) 0 := by
  interval_cases m <;> rfl

/-- The function `atoi` reads the decimal representation of a natural number back. -/
theorem atoi_repr (n : Nat) : atoi (Nat.repr n).toList = n := by
  have e : (Nat.repr n).toList = Nat.toDigitsCore 10 (n + 1) n [] := rfl
  rw [e]
  obtain ⟨m, t, hm, ht⟩ := toDigitsCore_head n n []
  have h2 := atoiDigits_toDigitsCore (n + 1) n [] (by omega)
  rw [ht] at h2 ⊢
  rw [atoi_digitChar_cons m hm t, h2]
  simp [atoiDigits]

/-- The function `atoi` gives 0 on a text that starts with neither white space, a sign
nor a digit. -/
theorem atoi_eq_zero (c : Char) (t : List Char) (hd : c.isDigit = false)
    (hs : isspace c = false) (hm : c ≠ '-') (hp : c ≠ '+') : atoi (c :: t) = 0 := by
  unfold atoi
  simp only [List.dropWhile, hs]
  split
  · rename_i r heq
    simp only [List.cons.injEq] at heq
    exact absurd heq.1 hm
  · rename_i r heq
    simp only [List.cons.injEq] at heq
    exact absurd heq.1 hp
  · simp [atoiDigits, hd]

/-- C9 (the code at the failing input): the host string `8080` contains no `:`, so it is
malformed, and the port returned for it is 8080, not 0: `find` returns `npos`,
`found + 1` wraps to 0, and `atoi` reads the whole string. -/
theorem hostport_no_colon_port_nonzero :
    ':' ∉ "8080".toList ∧ hostport "8080".toList = ("8080".toList, 8080) ∧
    ¬ (∀ host : List Char, ':' ∉ host → (hostport host).2 = 0) := by
  refine ⟨by decide, by decide, ?_⟩
  intro h
  have := h "8080".toList (by decide)
  revert this
  decide

/-- What `hostport` returns: for a host string that contains `:`, the text
before the first `:` as the host name and `atoi` of the text after it as the port, which
is `n` when that text is the decimal representation of a natural number `n` in the range
of `int`; for a host string without `:` it returns the whole string as the host name and
`atoi` of the whole string as the port, which is 0 when the string is empty or starts
with neither white space, a sign nor a digit.  (Host strings are shorter than `npos`.) -/
theorem hostport_split (host : List Char) (hlen : host.length < npos) :
    (∀ h p : List Char, host = h ++ ':' :: p → ':' ∉ h → hostport host = (h, atoi p)) ∧
    (∀ (h : List Char) (n : Nat), n ≤ 2147483647 →
      host = h ++ ':' :: (Nat.repr n).toList → ':' ∉ h → hostport host = (h, (n : Int))) ∧
    (':' ∉ host → hostport host = (host, atoi host)) ∧
    (':' ∉ host → host = [] → (hostport host).2 = 0) ∧
    (∀ (c : Char) (t : List Char), ':' ∉ host → host = c :: t → c.isDigit = false →
      isspace c = false → c ≠ '-' → c ≠ '+' → (hostport host).2 = 0) := by
  have hS := SIZE_MOD_eq
  have hsplit : ∀ h p : List Char, host = h ++ ':' :: p → ':' ∉ h →
      hostport host = (h, atoi p) := by
    intro h p hhost hh
    subst hhost
    have hmem : ':' ∈ h ++ ':' :: p := by simp
    have hidx : (h ++ ':' :: p).indexOf ':' = h.length := by
      rw [List.indexOf_append_of_not_mem hh]; simp
    have hl : (h ++ ':' :: p).length = h.length + p.length + 1 := by simp; omega
    have hb : h.length + p.length + 1 < SIZE_MOD := by
      rw [hl] at hlen; unfold npos at hlen; omega
    have e1 : (h.length + 1) % SIZE_MOD = h.length + 1 := Nat.mod_eq_of_lt (by omega)
    have e2 : ((h ++ ':' :: p).length + SIZE_MOD - h.length) % SIZE_MOD = p.length + 1 := by
      have : (h ++ ':' :: p).length + SIZE_MOD - h.length = (p.length + 1) + SIZE_MOD := by
        rw [hl]; omega
      rw [this, Nat.add_mod_right, Nat.mod_eq_of_lt (by omega)]
    have e3 : List.drop (h.length + 1) (h ++ ':' :: p) = p := by
      rw [List.drop_append_eq_append_drop]
      simp
    simp only [hostport, find, hmem, if_true, hidx, substr, List.drop_zero, e1, e2, e3]
    simp [List.take_left', List.take_of_length_le]
  have hwhole : ':' ∉ host → hostport host = (host, atoi host) := by
    intro hh
    have e1 : (npos + 1) % SIZE_MOD = 0 := by
      have : npos + 1 = SIZE_MOD := by unfold npos; omega
      rw [this, Nat.mod_self]
    have e2 : (host.length + SIZE_MOD - npos) % SIZE_MOD = host.length + 1 := by
      have : host.length + SIZE_MOD - npos = host.length + 1 := by unfold npos; omega
      rw [this]; exact Nat.mod_eq_of_lt (by unfold npos at hlen; omega)
    have e3 : List.take npos host = host := List.take_of_length_le (le_of_lt hlen)
    simp only [hostport, find, hh, if_false, substr, List.drop_zero, e1, e2, e3]
    simp [List.take_of_length_le]
  refine ⟨hsplit, ?_, hwhole, ?_, ?_⟩
  · intro h n _ hhost hh
    rw [hsplit h _ hhost hh, atoi_repr]
  · intro hh he
    rw [hwhole hh, he]
    rfl
  · intro c t hh he hd hs hm hp
    rw [hwhole hh, he]
    exact atoi_eq_zero c t hd hs hm hp

/-- The host of the spec: `example.com:8080` gives the host name `example.com` and the
port 8080. -/
theorem hostport_split_witness :
    hostport "example.com:8080".toList = ("example.com".toList, 8080) :=
  (hostport_split "example.com:8080".toList (by decide)).2.1 "example.com".toList 8080
    (by decide) (by decide) (by decide)

/-! ## close -/

/-- The function `close` leaves the client as it is: the socket member keeps its value. -/
theorem close_client (c : SpeedTestClient) (net : Net) : (c.close net).1 = c := by
  unfold SpeedTestClient.close
  split_ifs <;> rfl

/-- On a client that holds no socket `close` does nothing. -/
theorem close_of_no_socket (c : SpeedTestClient) (net : Net) (h : c.mSocketFd = 0) :
    (c.close net).2 = net := by
  unfold SpeedTestClient.close
  simp [h]

/-- On a client that holds a socket, every call of `close` sends `QUIT` and closes the
descriptor: two calls in a row do so twice. -/
theorem close_close_log (c : SpeedTestClient) (net : Net) (h : c.mSocketFd ≠ 0) :
    ((c.close net).1.close (c.close net).2).2.log =
      net.log ++ [SockOp.write c.mSocketFd "QUIT\n".toList, SockOp.close c.mSocketFd,
        SockOp.write c.mSocketFd "QUIT\n".toList, SockOp.close c.mSocketFd] := by
  have hq : ('\n' ∈ "QUIT".toList) = False := by decide
  simp [SpeedTestClient.close, writeLine, Net.write, Net.close, h, hq]

/-- C10 (the code at the failing input): a client that connected on descriptor 3 still
holds descriptor 3 after `close`, and a second `close` sends `QUIT` and closes
descriptor 3 once more. -/
theorem close_twice_repeats_socket_operations :
    connectedExample.1 = true ∧
    connectedExample.2.1.mSocketFd = 3 ∧
    closedOnce.1.mSocketFd = 3 ∧
    closedOnce.2.log =
      [SockOp.socket 3, SockOp.dial 3 8080, SockOp.write 3 "HI\n".toList,
        SockOp.write 3 "QUIT\n".toList, SockOp.close 3] ∧
    closedTwice.2.log =
      [SockOp.socket 3, SockOp.dial 3 8080, SockOp.write 3 "HI\n".toList,
        SockOp.write 3 "QUIT\n".toList, SockOp.close 3,
        SockOp.write 3 "QUIT\n".toList, SockOp.close 3] := by
  refine ⟨by decide, by decide, by decide, by decide, by decide⟩

/-! ## upload -/

theorem uploadLoop_done (fd chunk_size : Int) (fuel : Nat) (missing : Int) (buff : List Char)
    (net : Net) (h : ¬ missing > 0) :
    uploadLoop fd chunk_size fuel missing buff net = some (true, net) := by
  cases fuel <;> simp [uploadLoop, h]

/-- The write loop of `upload` when every `write` is complete: it ends, it has written
`missing` bytes in chunks of at most `chunk_size` bytes, and the last byte is the line
feed. -/
theorem uploadLoop_writes (fd chunk_size : Int) (hchunk : 1 ≤ chunk_size) :
    ∀ (fuel : Nat) (missing : Int) (buff : List Char) (net : Net),
      0 < missing → missing.toNat ≤ fuel → buff.length = chunk_size.toNat →
      (∀ k len, net.wret k len = (len : Int)) →
      ∃ (chunks : List (List Char)) (net1 : Net),
        uploadLoop fd chunk_size fuel missing buff net = some (true, net1) ∧
        net1.log = net.log ++ chunks.map (SockOp.write fd) ∧
        (chunks.flatten.length : Int) = missing ∧
        (∀ ch ∈ chunks, (ch.length : Int) ≤ chunk_size) ∧
        chunks.flatten.getLast? = some '\n' ∧
        net1.input = net.input := by
  intro fuel
  induction fuel with
  | zero => intro missing buff net h0 hf; omega
  | succ f ih =>
    intro missing buff net h0 hf hb hw
    by_cases hbig : missing - chunk_size > 0
    · -- a full chunk
      have htake : buff.take chunk_size.toNat = buff := List.take_of_length_le (le_of_eq hb)
      have hlen : ((buff.length : Nat) : Int) = chunk_size := by rw [hb]; omega
      obtain ⟨chunks, net1, hrun, hlog, hsum, hle, hlast, hin⟩ :=
        ih (missing - chunk_size) buff (net.write fd buff).2 hbig (by omega) hb
          (by intro k len; exact hw k len)
      refine ⟨buff :: chunks, net1, ?_, ?_, ?_, ?_, ?_, ?_⟩
      · simp only [uploadLoop, h0, hbig, if_true, htake, Net.write, hw, hlen]
        simpa [Net.write, hw, hlen] using hrun
      · rw [hlog]; simp [Net.write]
      · simp only [List.flatten_cons, List.length_append]; push_cast; rw [hsum, hlen]; ring
      · intro ch hch
        rcases List.mem_cons.mp hch with h1 | h1
        · rw [h1, hlen]
        · exact hle ch h1
      · have hne : chunks.flatten ≠ [] := by
          intro he; rw [he] at hsum; simp at hsum; omega
        simp only [List.flatten_cons]
        rw [List.getLast?_append_of_ne_nil _ hne]; exact hlast
      · rw [hin]; rfl
    · -- the last chunk
      have hm : missing ≤ chunk_size := by omega
      obtain ⟨buff1, hbuff1⟩ : ∃ b, b = buff.set (missing - 1).toNat '\n' := ⟨_, rfl⟩
      have hb1 : buff1.length = chunk_size.toNat := by simp [hbuff1, hb]
      have hlen : (((buff1.take missing.toNat).length : Nat) : Int) = missing := by
        rw [List.length_take, hb1]; omega
      refine ⟨[buff1.take missing.toNat], (net.write fd (buff1.take missing.toNat)).2,
        ?_, ?_, ?_, ?_, ?_, ?_⟩
      · simp only [uploadLoop, h0, hbig, if_true, if_false]
        rw [← hbuff1]
        simp only [Net.write, hw, hlen, ne_eq, not_true_eq_false, if_false, sub_self]
        exact uploadLoop_done _ _ _ _ _ _ (by decide)
      · simp [Net.write]
      · simp only [List.flatten_cons, List.flatten_nil, List.append_nil]; exact hlen
      · intro ch hch
        simp only [List.mem_singleton] at hch
        rw [hch, hlen]; exact hm
      · simp only [List.flatten_cons, List.flatten_nil, List.append_nil]
        have hidx : (missing - 1).toNat < buff.length := by rw [hb]; omega
        have hl2 : (buff1.take missing.toNat).length = (missing - 1).toNat + 1 := by
          have := hlen; omega
        rw [List.getLast?_eq_getElem?, hl2]
        simp only [Nat.add_sub_cancel]
        rw [List.getElem?_take, if_pos (by omega), hbuff1, List.getElem?_set_self hidx]
      · rfl

theorem readLine_log (net : Net) (fd : Int) (buffer : List Char) :
    (readLine net fd buffer).2.2.log = net.log := by
  simp only [readLine]
  split_ifs <;> rfl

theorem uploadCmd_mem (size : Int) : '\n' ∈ uploadCmd size := by
  simp [uploadCmd]

/-- C8: when the client holds a socket, `size` exceeds the length of the command line,
`chunk_size >= 1` and every `write` is complete, `upload` returns (given fuel for
`size - len` iterations) and what it has written after the command line is exactly
`size - len("UPLOAD <size>\n")` payload bytes, in chunks of at most `chunk_size` bytes,
the last byte being the line feed. -/
theorem upload_payload (c : SpeedTestClient) (net : Net) (rnd : Nat → Nat) (elapsed : Int)
    (size chunk_size : Int) (fuel : Nat)
    (hfd : c.mSocketFd ≠ 0)
    (hsize : ((uploadCmd size).length : Int) < size)
    (hchunk : 1 ≤ chunk_size)
    (hw : ∀ k len, net.wret k len = (len : Int))
    (hfuel : (size - ((uploadCmd size).length : Int)).toNat ≤ fuel) :
    ∃ (chunks : List (List Char)) (ok : Bool) (millisec : Int) (net1 : Net),
      c.upload net rnd elapsed size chunk_size fuel = some (ok, millisec, net1) ∧
      net1.log = net.log ++
        SockOp.write c.mSocketFd (uploadCmd size) :: chunks.map (SockOp.write c.mSocketFd) ∧
      (chunks.flatten.length : Int) = size - ((uploadCmd size).length : Int) ∧
      (∀ ch ∈ chunks, (ch.length : Int) ≤ chunk_size) ∧
      chunks.flatten.getLast? = some '\n' := by
  have hcmd0 : (uploadCmd size).length ≠ 0 := by simp [uploadCmd]
  have hwl : writeLine net c.mSocketFd (uploadCmd size) =
      (true, (net.write c.mSocketFd (uploadCmd size)).2) := by
    simp [writeLine, hfd, hcmd0, uploadCmd_mem, Net.write, hw]
  obtain ⟨chunks, net1, hrun, hlog, hsum, hle, hlast, -⟩ :=
    uploadLoop_writes c.mSocketFd chunk_size hchunk fuel
      (size - ((uploadCmd size).length : Int)) (uploadBuff rnd chunk_size)
      (net.write c.mSocketFd (uploadCmd size)).2 (by omega) hfuel
      (by simp [uploadBuff]) (by intro k len; exact hw k len)
  have hnc : ¬ chunk_size < 0 := by omega
  refine ⟨chunks,
    (if (!(readLine net1 c.mSocketFd []).1) = true then false
      else decide (substr (readLine net1 c.mSocketFd []).2.1 0
        ("OK ".toList ++ (toString size).toList ++ [' ']).length
          = "OK ".toList ++ (toString size).toList ++ [' '])),
    elapsed, (readLine net1 c.mSocketFd []).2.2, ?_, ?_, hsum, hle, hlast⟩
  · simp only [upload, hwl, Bool.not_true, Bool.false_eq_true, if_false, hnc, hrun]
    split_ifs <;> rfl
  · rw [readLine_log, hlog]
    simp [Net.write]

/-- C8, for an upload of 1,000,000 bytes: the command line has 15 bytes and the payload
written after it has `1,000,000 - 15` bytes and ends with the line feed. -/
theorem upload_payload_witness :
    ∃ (chunks : List (List Char)) (ok : Bool) (millisec : Int) (net1 : Net),
      connectedExample.2.1.upload helloNet (fun i => i) 250 1000000 65536 1000000 =
        some (ok, millisec, net1) ∧
      net1.log = helloNet.log ++
        SockOp.write 3 "UPLOAD 1000000\n".toList :: chunks.map (SockOp.write 3) ∧
      (chunks.flatten.length : Int) = 1000000 - 15 ∧
      (∀ ch ∈ chunks, (ch.length : Int) ≤ 65536) ∧
      chunks.flatten.getLast? = some '\n' :=
  upload_payload connectedExample.2.1 helloNet (fun i => i) 250 1000000 65536 1000000
    (by decide) (by decide) (by decide) (fun _ _ => rfl) (by decide)

/-! ## testLatency -/

/-- A client that holds a socket is connected: `connect` returns true at once. -/
theorem connect_of_socket (c : SpeedTestClient) (net : Net) (h : c.mSocketFd ≠ 0) :
    c.connect net = (true, c, net) := by
  simp [SpeedTestClient.connect, h]

/-- The loop of `testLatency` over `n` successful pings: it returns true and the minimum
of the incoming `latency` and the ping values. -/
theorem testLatencyLoop_ok (ping : Nat → Option Int) (p : Nat → Int) :
    ∀ (n i : Nat) (latency : Int), (∀ j, i ≤ j → j < i + n → ping j = some (p j)) →
      (testLatencyLoop ping n i latency).1 = true ∧
      (testLatencyLoop ping n i latency).2 ≤ latency ∧
      (∀ j, i ≤ j → j < i + n → (testLatencyLoop ping n i latency).2 ≤ p j) ∧
      ((testLatencyLoop ping n i latency).2 = latency ∨
        ∃ j, i ≤ j ∧ j < i + n ∧ (testLatencyLoop ping n i latency).2 = p j) := by
  intro n
  induction n with
  | zero =>
    intro i latency _
    refine ⟨rfl, le_refl _, ?_, Or.inl rfl⟩
    intro j h1 h2; omega
  | succ n ih =>
    intro i latency h
    have hi : ping i = some (p i) := h i (le_refl _) (by omega)
    obtain ⟨h1, h2, h3, h4⟩ := ih (i + 1) (if p i < latency then p i else latency)
      (fun j hj1 hj2 => h j (by omega) (by omega))
    simp only [testLatencyLoop, hi]
    refine ⟨h1, ?_, ?_, ?_⟩
    · refine le_trans h2 ?_
      split_ifs <;> omega
    · intro j hj1 hj2
      rcases Nat.eq_or_lt_of_le hj1 with he | hlt
      · subst he
        refine le_trans h2 ?_
        split_ifs <;> omega
      · exact h3 j hlt (by omega)
    · rcases h4 with h4 | ⟨j, hj1, hj2, hj3⟩
      · by_cases hc : p i < latency
        · right
          refine ⟨i, le_refl _, by omega, ?_⟩
          rw [h4, if_pos hc]
        · left
          rw [h4, if_neg hc]
      · right
        exact ⟨j, by omega, by omega, hj3⟩

/-- The loop of `testLatency` returns false as soon as one of its pings fails. -/
theorem testLatencyLoop_fail (ping : Nat → Option Int) :
    ∀ (n i : Nat) (latency : Int), (∃ j, i ≤ j ∧ j < i + n ∧ ping j = none) →
      (testLatencyLoop ping n i latency).1 = false := by
  intro n
  induction n with
  | zero =>
    intro i latency h
    obtain ⟨j, h1, h2, _⟩ := h
    omega
  | succ n ih =>
    intro i latency h
    obtain ⟨j, h1, h2, h3⟩ := h
    simp only [testLatencyLoop]
    cases hp : ping i with
    | none => rfl
    | some t =>
      have hne : j ≠ i := by
        intro he; rw [he, hp] at h3; cases h3
      exact ih (i + 1) _ ⟨j, by omega, by omega, h3⟩

/-- C5: on a connected client and for `n >= 1`, if all `n` pings succeed with the values
`p 0 .. p (n-1)` (values of a `long`), `testLatency` returns true with `latency` equal to
the minimum of these values (one of them, and below each of them); if one of the `n`
pings fails, it returns false. -/
theorem testLatency_min (client : SpeedTestClient) (net : Net) (ping : Nat → Option Int)
    (n : Nat) (latency : Int) (hn : 1 ≤ n) (hconn : client.mSocketFd ≠ 0) :
    (∀ p : Nat → Int, (∀ i, i < n → ping i = some (p i)) → (∀ i, i < n → p i ≤ LONG_MAX) →
      (testLatency client net ping n latency).1 = true ∧
      (∃ i, i < n ∧ (testLatency client net ping n latency).2.1 = p i) ∧
      (∀ i, i < n → (testLatency client net ping n latency).2.1 ≤ p i)) ∧
    ((∃ i, i < n ∧ ping i = none) → (testLatency client net ping n latency).1 = false) := by
  have ht : testLatency client net ping n latency =
      ((testLatencyLoop ping n 0 LONG_MAX).1, (testLatencyLoop ping n 0 LONG_MAX).2,
        client, net) := by
    simp [testLatency, connect_of_socket client net hconn]
  rw [ht]
  constructor
  · intro p hp hr
    obtain ⟨h1, h2, h3, h4⟩ := testLatencyLoop_ok ping p n 0 LONG_MAX
      (fun j _ hj => hp j (by omega))
    refine ⟨h1, ?_, fun i hi => h3 i (Nat.zero_le _) (by omega)⟩
    rcases h4 with h4 | ⟨j, _, hj2, hj3⟩
    · refine ⟨0, by omega, ?_⟩
      have a := h3 0 (le_refl _) (by omega)
      have b := hr 0 (by omega)
      show (testLatencyLoop ping n 0 LONG_MAX).2 = p 0
      omega
    · exact ⟨j, by omega, hj3⟩
  · rintro ⟨i, hi, hnone⟩
    exact testLatencyLoop_fail ping n 0 LONG_MAX ⟨i, Nat.zero_le _, by omega, hnone⟩

/-- C5, on five pings: the latency of the pings 30, 40, 35, 45, 40 is 30. -/
theorem testLatency_min_witness :
    (testLatency connectedExample.2.1 connectedExample.2.2
      (pingsOf [30, 40, 35, 45, 40]) 5 0).1 = true ∧
    (testLatency connectedExample.2.1 connectedExample.2.2
      (pingsOf [30, 40, 35, 45, 40]) 5 0).2.1 = 30 := by
  have h := (testLatency_min connectedExample.2.1 connectedExample.2.2
    (pingsOf [30, 40, 35, 45, 40]) 5 0 (by decide) (by decide)).1
    (fun i => ([30, 40, 35, 45, 40] : List Int).getD i 0)
    (by intro i hi; interval_cases i <;> rfl)
    (by intro i hi; interval_cases i <;> decide)
  refine ⟨h.1, ?_⟩
  decide

/-! ## jitter -/

theorem connectedExample_ok : ((create exampleServer).connect helloNet).1 = true := by decide

/-- C4 (the code at the failing input): for the pings 10, 20, 40 the consecutive
differences sum to 30 and the spec's jitter is `ceil(30 / 3) = 10`, but `jitter` returns
14: `previous_ms` keeps the first value, so the code adds `|10 - 20| + |10 - 40| = 40`,
and the double nearest to `40 / 3` rounds up to 14. -/
theorem jitter_measures_from_first_ping :
    jitter exampleServer helloNet (pingsOf [10, 20, 40]) 3 0 = some (true, 14) ∧
    specJitter [10, 20, 40] = 10 := by
  have r10 : Dbl.round binary64 10 = Dbl.fin 10 := by
    apply round_pos binary64 _ _ 3 5629499534213120 <;> norm_num [binary64]
  have r30 : Dbl.round binary64 30 = Dbl.fin 30 := by
    apply round_pos binary64 _ _ 4 (15 * 2 ^ 49) <;> norm_num [binary64]
  have r3 : Dbl.round binary64 3 = Dbl.fin 3 := by
    apply round_pos binary64 _ _ 1 6755399441055744 <;> norm_num [binary64]
  have a1 : Dbl.addF binary64 (Dbl.fin 0) (Dbl.fin 10) = Dbl.fin 10 := by
    show Dbl.round binary64 (0 + 10) = Dbl.fin 10
    apply round_pos binary64 _ _ 3 5629499534213120 <;> norm_num [binary64]
  have a2 : Dbl.addF binary64 (Dbl.fin 10) (Dbl.fin 30) = Dbl.fin 40 := by
    show Dbl.round binary64 (10 + 30) = Dbl.fin 40
    apply round_pos binary64 _ _ 5 5629499534213120 <;> norm_num [binary64]
  have hl : jitterLoop (pingsOf [10, 20, 40]) (3 : Int).toNat 0 (Dbl.fin 0, LONG_MAX, 0)
      = (Dbl.fin 40, 10, 3) := by
    simp [jitterLoop, pingsOf, LONG_MAX, Dbl.add, Dbl.ofInt, r10, r30, a1, a2]
  have hc : (⌈(7505999378950827 / 562949953421312 : ℚ)⌉ : Int) = 14 := by
    rw [Int.ceil_eq_iff]; norm_num
  have hd : Dbl.div (Dbl.fin 40) (Dbl.ofInt ((3 : Nat) : Int)) =
      Dbl.fin (7505999378950827 / 562949953421312) := by
    have e3 : Dbl.ofInt ((3 : Nat) : Int) = Dbl.fin 3 := by
      simp [Dbl.ofInt, r3]
    rw [e3, div_fin _ _ (by norm_num)]
    apply round_pos binary64 _ _ 3 7505999378950827 <;> norm_num [binary64]
  constructor
  · simp only [jitter, connectedExample_ok, if_true, hl, hd, Dbl.ceil, hc]
    simp [Dbl.toLong, LONG_MAX]
  · simp only [specJitter, consecutiveDiffs]
    rw [Int.ceil_eq_iff]; norm_num

/-! ## findBestServerWithin -/

/-- A latency test that returns true after at least one ping measures less than
`LONG_MAX` when every ping does. -/
theorem testLatencyLoop_lt (ping : Nat → Option Int)
    (hping : ∀ i ms, ping i = some ms → ms < LONG_MAX) :
    ∀ (n i : Nat) (latency : Int), (testLatencyLoop ping n i latency).1 = true →
      (testLatencyLoop ping n i latency).2 ≤ latency ∧
      (1 ≤ n → (testLatencyLoop ping n i latency).2 < LONG_MAX) := by
  intro n
  induction n with
  | zero =>
    intro i latency _
    exact ⟨le_refl _, fun h => absurd h (by decide)⟩
  | succ n ih =>
    intro i latency h
    cases hp : ping i with
    | none => simp [testLatencyLoop, hp] at h
    | some t =>
      simp only [testLatencyLoop, hp] at h ⊢
      obtain ⟨h1, _⟩ := ih (i + 1) _ h
      have ht := hping i t hp
      constructor
      · refine le_trans h1 ?_
        split_ifs <;> omega
      · intro _
        refine lt_of_le_of_lt h1 ?_
        split_ifs <;> omega

theorem testLatency_lt (client : SpeedTestClient) (net : Net) (ping : Nat → Option Int)
    (hping : ∀ i ms, ping i = some ms → ms < LONG_MAX)
    (h : (testLatency client net ping SPEED_TEST_LATENCY_SAMPLE_SIZE LONG_MAX).1 = true) :
    (testLatency client net ping SPEED_TEST_LATENCY_SAMPLE_SIZE LONG_MAX).2.1 < LONG_MAX := by
  unfold testLatency at h ⊢
  by_cases hc : (client.connect net).1 = true
  · simp only [hc, Bool.not_true, Bool.false_eq_true, if_false] at h ⊢
    exact (testLatencyLoop_lt ping hping _ 0 LONG_MAX h).2 (by decide)
  · simp [hc] at h

/-- The invariant is kept when the next candidate measures nothing. -/
theorem findInv_skip {minVer : Dbl} {serverList : List ServerInfo} {nets : Nat → Net}
    {pings : Nat → Nat → Option Int} {first : ServerInfo} {st : FindState}
    (h : FindInv minVer serverList nets pings first st) (server : ServerInfo)
    (hs : serverList[st.callbacks.length]? = some server)
    (hm : measuredLatency minVer server (nets st.callbacks.length)
      (pings st.callbacks.length) = none) (b : Bool) (i1 : Int) :
    FindInv minVer serverList nets pings first
      { st with callbacks := st.callbacks ++ [b], i := i1 } := by
  obtain ⟨h1, h2, h3, h4, h5, h6⟩ := h
  refine ⟨h1, h2, h3, h4, h5, ?_⟩
  intro k s l hk hks hkm
  simp only [List.length_append, List.length_singleton] at hk
  rcases Nat.lt_succ_iff_lt_or_eq.mp hk with hlt | heq
  · exact h6 k s l hlt hks hkm
  · subst heq
    rw [hs] at hks
    cases hks
    rw [hm] at hkm
    cases hkm

/-- The invariant is kept when the next candidate measures a latency below `LONG_MAX`
and the loop updates its best pair as `findBestServerWithin` does. -/
theorem findInv_measure {minVer : Dbl} {serverList : List ServerInfo} {nets : Nat → Net}
    {pings : Nat → Nat → Option Int} {first : ServerInfo} {st : FindState}
    (h : FindInv minVer serverList nets pings first st) (server : ServerInfo) (l : Int)
    (hs : serverList[st.callbacks.length]? = some server)
    (hm : measuredLatency minVer server (nets st.callbacks.length)
      (pings st.callbacks.length) = some l) (hl : l < LONG_MAX) :
    FindInv minVer serverList nets pings first
      { bestServer := if l < st.latency then server else st.bestServer
        latency := if l < st.latency then l else st.latency
        i := st.i - 1
        callbacks := st.callbacks ++ [true]
        measured := st.measured ++ [(server, l)] } := by
  obtain ⟨h1, h2, h3, h4, h5, h6⟩ := h
  refine ⟨?_, ?_, ?_, ?_, ?_, ?_⟩
  · intro he
    simp at he
  · intro _
    by_cases hc : l < st.latency
    · simp [hc]
    · simp only [hc, if_false]
      have hne : st.measured ≠ [] := by
        intro he
        have := (h1 he).2
        omega
      exact List.mem_append_left _ (h2 hne)
  · intro m hmem
    rcases List.mem_append.mp hmem with hm1 | hm1
    · have := h3 m hm1
      show (if l < st.latency then l else st.latency) ≤ m.2
      split_ifs <;> omega
    · simp only [List.mem_singleton] at hm1
      subst hm1
      show (if l < st.latency then l else st.latency) ≤ l
      split_ifs <;> omega
  · intro m hmem
    rcases List.mem_append.mp hmem with hm1 | hm1
    · exact h4 m hm1
    · simp only [List.mem_singleton] at hm1
      subst hm1
      exact hl
  · intro m hmem
    rcases List.mem_append.mp hmem with hm1 | hm1
    · exact h5 m hm1
    · simp only [List.mem_singleton] at hm1
      subst hm1
      exact ⟨_, hs, hm⟩
  · intro k s l1 hk hks hkm
    simp only [List.length_append, List.length_singleton] at hk
    rcases Nat.lt_succ_iff_lt_or_eq.mp hk with hlt | heq
    · exact List.mem_append_left _ (h6 k s l1 hlt hks hkm)
    · subst heq
      rw [hs] at hks
      cases hks
      rw [hm] at hkm
      cases hkm
      exact List.mem_append_right _ (List.mem_singleton.mpr rfl)

/-- The loop of `findBestServerWithin` keeps the invariant `FindInv`. -/
theorem findLoop_inv (minVer : Dbl) (serverList : List ServerInfo) (nets : Nat → Net)
    (pings : Nat → Nat → Option Int) (first : ServerInfo)
    (hping : ∀ j i ms, pings j i = some ms → ms < LONG_MAX) :
    ∀ (l : List ServerInfo) (j : Nat) (st : FindState),
      FindInv minVer serverList nets pings first st → st.callbacks.length = j →
      (∀ k, l[k]? = serverList[j + k]?) →
      FindInv minVer serverList nets pings first (findLoop minVer nets pings l j st) := by
  intro l
  induction l with
  | nil => intro j st h _ _; exact h
  | cons server rest ih =>
    intro j st hinv hlen hl
    subst hlen
    have hs : serverList[st.callbacks.length]? = some server := by
      have := hl 0
      simpa using this.symm
    have hrest : ∀ k, rest[k]? = serverList[st.callbacks.length + 1 + k]? := by
      intro k
      have := hl (k + 1)
      simp only [List.getElem?_cons_succ] at this
      rw [this]
      congr 1
      omega
    by_cases hc : ((create server).connect (nets st.callbacks.length)).1 = true
    · by_cases hv : Dbl.lt ((create server).connect (nets st.callbacks.length)).2.1.version
          minVer = true
      · -- the version check fails
        have hm : measuredLatency minVer server (nets st.callbacks.length)
            (pings st.callbacks.length) = none := by
          simp [measuredLatency, hv]
        have hskip := findInv_skip hinv server hs hm false st.i
        simp only [findLoop, hc, hv, Bool.not_true, Bool.false_eq_true, if_false, if_true]
        exact ih _ _ hskip (by simp) hrest
      · -- the candidate is evaluated
        have hv' : Dbl.lt ((create server).connect (nets st.callbacks.length)).2.1.version
            minVer = false := by simpa using hv
        by_cases ht : (testLatency ((create server).connect (nets st.callbacks.length)).2.1
            ((create server).connect (nets st.callbacks.length)).2.2
            (pings st.callbacks.length) SPEED_TEST_LATENCY_SAMPLE_SIZE LONG_MAX).1 = true
        · have hm : measuredLatency minVer server (nets st.callbacks.length)
              (pings st.callbacks.length) = some (testLatency
                ((create server).connect (nets st.callbacks.length)).2.1
                ((create server).connect (nets st.callbacks.length)).2.2
                (pings st.callbacks.length) SPEED_TEST_LATENCY_SAMPLE_SIZE LONG_MAX).2.1 := by
            simp [measuredLatency, hc, hv', ht]
          have hlt := testLatency_lt _ _ _ (hping st.callbacks.length) ht
          have hstep := findInv_measure hinv server _ hs hm hlt
          simp only [findLoop, hc, hv', Bool.not_true, Bool.false_eq_true, if_false, ht,
            true_and]
          by_cases hcl : (testLatency ((create server).connect (nets st.callbacks.length)).2.1
              ((create server).connect (nets st.callbacks.length)).2.2
              (pings st.callbacks.length) SPEED_TEST_LATENCY_SAMPLE_SIZE LONG_MAX).2.1
                < st.latency
          · simp only [hcl, if_true] at hstep ⊢
            split_ifs
            · exact hstep
            · exact ih _ _ hstep (by simp) hrest
          · simp only [hcl, if_false] at hstep ⊢
            split_ifs
            · exact hstep
            · exact ih _ _ hstep (by simp) hrest
        · have hm : measuredLatency minVer server (nets st.callbacks.length)
              (pings st.callbacks.length) = none := by
            simp [measuredLatency, hc, hv', ht]
          have hskip := findInv_skip hinv server hs hm true (st.i - 1)
          simp only [findLoop, hc, hv', Bool.not_true, Bool.false_eq_true, if_false, ht,
            false_and]
          split_ifs
          · exact hskip
          · exact ih _ _ hskip (by simp) hrest
    · -- the candidate does not connect
      have hm : measuredLatency minVer server (nets st.callbacks.length)
          (pings st.callbacks.length) = none := by
        simp [measuredLatency, hc]
      have hskip := findInv_skip hinv server hs hm false st.i
      have hc' : ((create server).connect (nets st.callbacks.length)).1 = false := by
        simpa using hc
      simp only [findLoop, hc', Bool.not_false, if_true]
      exact ih _ _ hskip (by simp) hrest

/-- C6: on a non-empty server list, with ping values below `LONG_MAX`,
`findBestServerWithin` returns; if no candidate was measured it returns the first list
element with `latency = LONG_MAX`; otherwise the returned server and latency are a
measured pair and the latency is the smallest measured one.  The measured pairs are
exactly what the visited candidates (one callback each) measure after connecting and
meeting the minimum version.  A candidate that fails to connect or fails the version
check gets `callback(false)`, changes nothing else, and the loop goes on with the next
one. -/
theorem findBestServerWithin_best (minVer : Dbl) (serverList : List ServerInfo)
    (nets : Nat → Net) (pings : Nat → Nat → Option Int) (sample_size : Int)
    (hne : serverList ≠ [])
    (hping : ∀ j i ms, pings j i = some ms → ms < LONG_MAX) :
    (∃ st, findBestServerWithin minVer serverList nets pings sample_size = some st ∧
      (st.measured = [] → st.bestServer = serverList.head hne ∧ st.latency = LONG_MAX) ∧
      (st.measured ≠ [] → (st.bestServer, st.latency) ∈ st.measured) ∧
      (∀ m ∈ st.measured, st.latency ≤ m.2) ∧
      (∀ m ∈ st.measured, ∃ j, serverList[j]? = some m.1 ∧
        measuredLatency minVer m.1 (nets j) (pings j) = some m.2) ∧
      (∀ (k : Nat) (s : ServerInfo) (l : Int), k < st.callbacks.length →
        serverList[k]? = some s →
        measuredLatency minVer s (nets k) (pings k) = some l → (s, l) ∈ st.measured)) ∧
    (∀ (server : ServerInfo) (rest : List ServerInfo) (j : Nat) (st0 : FindState),
      (((create server).connect (nets j)).1 = false ∨
        Dbl.lt ((create server).connect (nets j)).2.1.version minVer = true) →
      findLoop minVer nets pings (server :: rest) j st0 =
        findLoop minVer nets pings rest (j + 1)
          { st0 with callbacks := st0.callbacks ++ [false] }) := by
  constructor
  · cases serverList with
    | nil => exact absurd rfl hne
    | cons first rest =>
      have h0 : FindInv minVer (first :: rest) nets pings first
          ⟨first, LONG_MAX, sample_size, [], []⟩ := by
        refine ⟨fun _ => ⟨rfl, rfl⟩, fun h => absurd rfl h, ?_, ?_, ?_, ?_⟩
        · intro m hm; cases hm
        · intro m hm; cases hm
        · intro m hm; cases hm
        · intro k s l hk; simp at hk
      have h := findLoop_inv minVer (first :: rest) nets pings first hping (first :: rest) 0
        ⟨first, LONG_MAX, sample_size, [], []⟩ h0 rfl (by intro k; simp)
      obtain ⟨h1, h2, h3, _, h5, h6⟩ := h
      exact ⟨_, rfl, h1, h2, h3, h5, h6⟩
  · intro server rest j st0 h
    rcases h with h | h
    · simp [findLoop, h]
    · by_cases hc : ((create server).connect (nets j)).1 = true
      · simp [findLoop, hc, h]
      · have hc' : ((create server).connect (nets j)).1 = false := by simpa using hc
        simp [findLoop, hc']

/-- C6, on three servers of which the first refuses the connection and the others measure
29 ms and 28 ms: the third server is returned with the latency 28. -/
theorem findBestServerWithin_best_witness :
    (findBestServerWithin (Dbl.fin (mkRat 23 10)) threeServers exampleNets examplePings
      10).map (fun st => (st.bestServer.id, st.latency, st.callbacks)) =
      some (3, 28, [false, true, true]) ∧
    ∃ st, findBestServerWithin (Dbl.fin (mkRat 23 10)) threeServers exampleNets
        examplePings 10 = some st ∧
      (st.measured ≠ [] → (st.bestServer, st.latency) ∈ st.measured) ∧
      (∀ m ∈ st.measured, st.latency ≤ m.2) := by
  refine ⟨by decide, ?_⟩
  obtain ⟨st, h, _, h2, h3, _⟩ :=
    (findBestServerWithin_best (Dbl.fin (mkRat 23 10)) threeServers exampleNets
      examplePings 10 (by decide)
      (by
        intro j i ms h
        simp only [examplePings, Option.some.injEq] at h
        unfold LONG_MAX
        omega)).1
  exact ⟨st, h, h2, h3⟩

/-- What the loop of `findBestServerWithin` does guarantee: it makes at most
`max 1 (i + 2)` further `callback(true)` calls, that is at most `sample_size + 2`
evaluated candidates when `sample_size >= 0`. -/
theorem findLoop_evaluated_le (minVer : Dbl) (nets : Nat → Net)
    (pings : Nat → Nat → Option Int) :
    ∀ (l : List ServerInfo) (j : Nat) (st : FindState),
      (((findLoop minVer nets pings l j st).callbacks.count true : Nat) : Int) ≤
        (st.callbacks.count true : Nat) + max 1 (st.i + 2) := by
  intro l
  induction l with
  | nil =>
    intro j st
    simp only [findLoop]
    have : (1 : Int) ≤ max 1 (st.i + 2) := le_max_left _ _
    omega
  | cons server rest ih =>
    intro j st
    by_cases hc : ((create server).connect (nets j)).1 = true
    · by_cases hv : Dbl.lt ((create server).connect (nets j)).2.1.version minVer = true
      · simp only [findLoop, hc, hv, Bool.not_true, Bool.false_eq_true, if_false, if_true]
        refine le_trans (ih _ _) ?_
        simp
      · have hv' : Dbl.lt ((create server).connect (nets j)).2.1.version minVer = false := by
          simpa using hv
        simp only [findLoop, hc, hv', Bool.not_true, Bool.false_eq_true, if_false]
        by_cases hi : st.i < 0
        · simp only [hi, if_true]
          have : (1 : Int) ≤ max 1 (st.i + 2) := le_max_left _ _
          split_ifs <;> simp
        · simp only [hi, if_false]
          refine le_trans (ih _ _) ?_
          have h1 : max (1 : Int) (st.i + 2) = st.i + 2 := max_eq_right (by omega)
          have h2 : max (1 : Int) (st.i - 1 + 2) = st.i + 1 := by
            rw [max_eq_right (by omega)]; ring
          split_ifs
          all_goals
            simp only [List.count_append, List.count_singleton, beq_self_eq_true, if_true]
            rw [h1, h2]; push_cast; omega
    · have hc' : ((create server).connect (nets j)).1 = false := by simpa using hc
      simp only [findLoop, hc', Bool.not_false, if_true]
      refine le_trans (ih _ _) ?_
      simp

/-- C7 (the code at the failing input): with `sample_size = 0` and three servers that all
connect and pass the version check, the loop evaluates two candidates (two calls of
`callback(true)`), one more than `sample_size + 1`, before it stops. -/
theorem findBestServerWithin_evaluates_two_for_zero :
    (findBestServerWithin (Dbl.fin (mkRat 23 10)) threeServers (fun _ => helloNet)
      (fun _ _ => some 20) 0).map (fun st => (st.callbacks, st.callbacks.count true)) =
      some ([true, true], 2) := by
  decide

/-! ## execute -/

theorem attemptSize_succ (config : TestConfig) (k : Nat) :
    attemptSize config k + config.incr_size = attemptSize config (k + 1) := by
  simp only [attemptSize]; push_cast; ring

theorem workerLoop_done (config : TestConfig) (env : WorkerEnv) (fuel k : Nat) (curr : Int)
    (run : WorkerRun) (h : config.max_size ≤ curr) :
    workerLoop config env fuel k curr run = some run := by
  have : ¬ curr < config.max_size := by omega
  cases fuel <;> simp [workerLoop, this]

/-- The loop of a worker that stops after `n` transfers, started before its `k`-th
transfer with `m` transfers to go: with fuel for `m` iterations it returns, having added
the samples, callbacks and sizes of the transfers `k .. k + m - 1`. -/
theorem workerLoop_run (config : TestConfig) (env : WorkerEnv) (n : Nat)
    (hstop : stopsAfter config env n) :
    ∀ (m k fuel : Nat) (run : WorkerRun), k + m = n → m ≤ fuel →
      (m = 0 → config.max_size ≤ attemptSize config n) →
      workerLoop config env fuel k (attemptSize config k) run =
        some ⟨run.partial_results ++ (List.range' k m).filterMap (attemptSample config env),
          run.callbacks ++ (List.range' k m).map (attemptOk config env),
          run.requested ++ (List.range' k m).map (attemptSize config)⟩ := by
  obtain ⟨ha, hb, hc⟩ := hstop
  intro m
  induction m with
  | zero =>
    intro k fuel run hk _ h0
    have hkn : k = n := by omega
    subst hkn
    rw [workerLoop_done config env fuel k _ run (h0 rfl)]
    simp
  | succ m ih =>
    intro k fuel run hk hfuel _
    obtain ⟨f, rfl⟩ : ∃ f, fuel = f + 1 := ⟨fuel - 1, by omega⟩
    have hlt : attemptSize config k < config.max_size := ha k (by omega)
    have e1 : (env.pfunc k (attemptSize config k) config.buff_size).1 = attemptOk config env k :=
      rfl
    have e2 : (env.pfunc k (attemptSize config k) config.buff_size).2 =
        attemptTime config env k := rfl
    simp only [workerLoop, hlt, if_true, e1, e2]
    by_cases hbreak : env.elapsed k > config.min_test_time_ms
    · have hm0 : m = 0 := by
        by_contra hne
        have := hb k (by omega)
        omega
      subst hm0
      simp only [hbreak, if_true]
      cases hok : attemptOk config env k <;>
        simp [attemptSample, hok, List.range']
    · simp only [hbreak, if_false]
      rw [attemptSize_succ]
      rw [ih (k + 1) f _ (by omega) (by omega)]
      · cases hok : attemptOk config env k <;>
          simp [attemptSample, hok, List.range'_succ]
      · intro hm0
        rcases hc with ⟨_, hgt⟩ | hge
        · exfalso
          have : n - 1 = k := by omega
          rw [this] at hgt
          exact hbreak hgt
        · exact hge

/-- Addition of doubles is commutative. -/
theorem dblAdd_comm (a b : Dbl) : Dbl.add a b = Dbl.add b a := by
  cases a <;> cases b <;> simp [Dbl.add, Dbl.addF, add_comm]

theorem dblLe_of_not_lt (x y : Dbl) (hx : x ≠ Dbl.nan) (hy : y ≠ Dbl.nan)
    (h : Dbl.lt y x = false) : Dbl.le x y = true := by
  cases x <;> cases y <;> simp_all [Dbl.lt, Dbl.le]

theorem dblLe_of_lt (x y : Dbl) (h : Dbl.lt x y = true) : Dbl.le x y = true := by
  cases x <;> cases y <;> simp_all [Dbl.lt, Dbl.le]
  exact le_of_lt h

theorem dblLe_trans (x y z : Dbl) (h1 : Dbl.le x y = true) (h2 : Dbl.le y z = true) :
    Dbl.le x z = true := by
  cases x <;> cases y <;> cases z <;> simp_all [Dbl.le]
  exact le_trans h1 h2

theorem sumLoop_foldl :
    ∀ (l : List Dbl) (n : Nat) (d : Dbl),
      l.foldl (fun acc x => (acc.1 + 1, Dbl.add acc.2 x)) (n, d) =
        (n + l.length, l.foldl Dbl.add d) := by
  intro l
  induction l with
  | nil => intro n d; simp
  | cons x t ih =>
    intro n d
    simp only [List.foldl_cons, ih, List.length_cons]
    rw [Nat.add_assoc, Nat.add_comm 1]

/-- The accumulation loop of a worker counts the samples it is given and adds them up. -/
theorem sumLoop_eq (l : List Dbl) : sumLoop l = (l.length, Dbl.sum l) := by
  unfold sumLoop Dbl.sum
  rw [sumLoop_foldl]
  simp

/-- The value a worker adds to `overall_speed` when it connects and stops after `n`
transfers: the sum of its samples in ascending order divided by their number, in double
arithmetic. -/
theorem worker_mean (server : ServerInfo) (config : TestConfig) (env : WorkerEnv)
    (fuel n : Nat)
    (hconn : ((create server).connect env.net).1 = true)
    (hstop : stopsAfter config env n) (hfuel : n ≤ fuel) :
    worker server config env fuel =
      some (some (dblWorkerMean config env n),
        ⟨dblSamples config env n, (List.range n).map (attemptOk config env),
          (List.range n).map (attemptSize config)⟩) := by
  have hrun := workerLoop_run config env n hstop n 0 fuel ⟨[], [], []⟩ (by omega) hfuel
    (by
      intro h0
      rcases hstop.2.2 with ⟨hn, _⟩ | hge
      · omega
      · exact hge)
  have h0 : attemptSize config 0 = config.start_size := by simp [attemptSize]
  rw [h0, ← List.range_eq_range'] at hrun
  have hP : (List.range n).filterMap (attemptSample config env) = dblSamples config env n := rfl
  simp only [worker, hconn, if_true, hrun, List.nil_append, hP, sumLoop_eq, Nat.sub_zero,
    List.take_length, List.drop_zero]
  rfl

/-- A worker whose client cannot connect makes `callback(false)` once and adds nothing to
`overall_speed`. -/
theorem worker_of_no_connect (server : ServerInfo) (config : TestConfig) (env : WorkerEnv)
    (fuel : Nat) (h : ((create server).connect env.net).1 = false) :
    worker server config env fuel = some (none, ⟨[], [false], []⟩) := by
  simp [worker, h]

theorem accumulate_foldl (contrib : Nat → Option Dbl) (m : Nat → Dbl) :
    ∀ (order : List Nat) (d : Dbl), (∀ w ∈ order, contrib w = some (m w)) →
      order.foldl (fun overall_speed w =>
        match contrib w with
        | some x => Dbl.add overall_speed x
        | none => overall_speed) d = (order.map m).foldl Dbl.add d := by
  intro order
  induction order with
  | nil => intro d _; simp
  | cons w t ih =>
    intro d h
    have hw := h w (List.mem_cons_self _ _)
    simp only [List.foldl_cons, hw, List.map_cons]
    exact ih _ (fun y hy => h y (List.mem_cons_of_mem _ hy))

/-- The run of `execute` when every worker connects and stops after its `n w` transfers:
the means of the workers are added up from `0.0` in the order in which the workers take
the mutex, and the sum is divided by 1024 twice. -/
theorem execute_run (server : ServerInfo) (config : TestConfig)
    (envs : Nat → WorkerEnv) (order : List Nat) (fuel : Nat) (n : Nat → Nat)
    (horder : ∀ w ∈ order, w < config.concurrency.toNat)
    (hconn : ∀ w, w < config.concurrency.toNat →
      ((create server).connect (envs w).net).1 = true)
    (hstop : ∀ w, w < config.concurrency.toNat → stopsAfter config (envs w) (n w))
    (hfuel : ∀ w, w < config.concurrency.toNat → n w ≤ fuel) :
    execute server config envs order fuel =
      some (Dbl.div (Dbl.div (Dbl.sum (order.map
        (fun w => dblWorkerMean config (envs w) (n w)))) (Dbl.ofInt 1024)) (Dbl.ofInt 1024),
        (List.range config.concurrency.toNat).map
          (fun w => (List.range (n w)).map (attemptOk config (envs w)))) := by
  have hw : ∀ w, w < config.concurrency.toNat → worker server config (envs w) fuel =
      some (some (dblWorkerMean config (envs w) (n w)),
        ⟨dblSamples config (envs w) (n w), (List.range (n w)).map (attemptOk config (envs w)),
          (List.range (n w)).map (attemptSize config)⟩) :=
    fun w h => worker_mean server config (envs w) fuel (n w) (hconn w h) (hstop w h)
      (hfuel w h)
  have hall : ((List.range config.concurrency.toNat).map
      (fun w => worker server config (envs w) fuel)).all Option.isSome = true := by
    rw [List.all_eq_true]
    intro x hx
    obtain ⟨w, hwr, rfl⟩ := List.mem_map.mp hx
    rw [hw w (List.mem_range.mp hwr)]; rfl
  have hacc := accumulate_foldl
    (fun w => match worker server config (envs w) fuel with
      | some out => out.1
      | none => none)
    (fun w => dblWorkerMean config (envs w) (n w)) order (Dbl.fin 0)
    (by
      intro w h
      simp only [hw w (horder w h)])
  have hcb : ((List.range config.concurrency.toNat).map
      (fun w => worker server config (envs w) fuel)).filterMap
        (fun o => o.map (fun out => out.2.callbacks)) =
      (List.range config.concurrency.toNat).map
        (fun w => (List.range (n w)).map (attemptOk config (envs w))) := by
    rw [List.filterMap_map]
    rw [← List.filterMap_eq_map]
    apply List.filterMap_congr
    intro w hwr
    simp [hw w (List.mem_range.mp hwr)]
  simp only [execute, hall, if_true, accumulate, hacc, hcb]
  rfl

/-- When no worker can connect, `execute` returns 0 and every worker makes
`callback(false)` once. -/
theorem execute_zero_when_no_worker_connects (server : ServerInfo) (config : TestConfig)
    (envs : Nat → WorkerEnv) (order : List Nat) (fuel : Nat)
    (horder : order.Perm (List.range config.concurrency.toNat))
    (hconn : ∀ w, w < config.concurrency.toNat →
      ((create server).connect (envs w).net).1 = false) :
    execute server config envs order fuel =
      some (Dbl.fin 0, (List.range config.concurrency.toNat).map (fun _ => [false])) := by
  have hw : ∀ w, w < config.concurrency.toNat →
      worker server config (envs w) fuel = some (none, ⟨[], [false], []⟩) :=
    fun w h => worker_of_no_connect server config (envs w) fuel (hconn w h)
  have hall : ((List.range config.concurrency.toNat).map
      (fun w => worker server config (envs w) fuel)).all Option.isSome = true := by
    rw [List.all_eq_true]
    intro x hx
    obtain ⟨w, hwr, rfl⟩ := List.mem_map.mp hx
    rw [hw w (List.mem_range.mp hwr)]; rfl
  have hacc : ∀ (l : List Nat) (d : Dbl), (∀ w ∈ l, w < config.concurrency.toNat) →
      l.foldl (fun overall_speed w =>
        match (match worker server config (envs w) fuel with
          | some out => out.1
          | none => none) with
        | some x => Dbl.add overall_speed x
        | none => overall_speed) d = d := by
    intro l
    induction l with
    | nil => intro d _; rfl
    | cons w t ih =>
      intro d h
      simp only [List.foldl_cons, hw w (h w (List.mem_cons_self _ _))]
      exact ih d (fun y hy => h y (List.mem_cons_of_mem _ hy))
  have hcb : ((List.range config.concurrency.toNat).map
      (fun w => worker server config (envs w) fuel)).filterMap
        (fun o => o.map (fun out => out.2.callbacks)) =
      (List.range config.concurrency.toNat).map (fun _ => [false]) := by
    rw [List.filterMap_map]
    rw [← List.filterMap_eq_map]
    apply List.filterMap_congr
    intro w hwr
    simp [hw w (List.mem_range.mp hwr)]
  simp only [execute, hall, if_true, accumulate, hcb]
  rw [hacc order _ (fun w hwo => List.mem_range.mp (horder.mem_iff.mp hwo))]
  rw [ofInt_1024, div_fin 0 1024 (by norm_num), zero_div, round_zero,
    div_fin 0 1024 (by norm_num), zero_div, round_zero]

/-- C3 (the code at the failing input): with the preflight configuration and two workers
that connect and whose transfers all fail, no sample is recorded, every worker adds
`0.0 / 0`, and `execute` returns NaN, which is neither `>= 0` nor equal to 0. -/
theorem execute_nan_when_all_transfers_fail :
    execute exampleServer preflightConfigDownload (fun _ => failingEnv) [0, 1] 12 =
      some (Dbl.nan, [List.replicate 12 false, List.replicate 12 false]) ∧
    Dbl.ge Dbl.nan (Dbl.fin 0) = false ∧ Dbl.nan ≠ Dbl.fin 0 := by
  have hstop : stopsAfter preflightConfigDownload failingEnv 12 := by
    refine ⟨?_, ?_, Or.inr (by decide)⟩
    · intro k hk
      interval_cases k <;> decide
    · intro k _
      simp [failingEnv, preflightConfigDownload]
  have hs : dblSamples preflightConfigDownload failingEnv 12 = [] := by
    simp [dblSamples, attemptSample, attemptOk, failingEnv]
  have hmean : dblWorkerMean preflightConfigDownload failingEnv 12 = Dbl.nan := by
    unfold dblWorkerMean sortedSamples
    rw [hs]
    simp [Dbl.sum, ofInt_zero, Dbl.div, Dbl.divF]
  refine ⟨?_, by decide, by decide⟩
  rw [execute_run exampleServer preflightConfigDownload (fun _ => failingEnv) [0, 1] 12
    (fun _ => 12) (by decide) (fun _ _ => connectedExample_ok) (fun _ _ => hstop)
    (fun _ _ => le_refl _)]
  simp only [List.map, hmean]
  have hsum : Dbl.sum [Dbl.nan, Dbl.nan] = Dbl.nan := by
    simp [Dbl.sum, Dbl.add, Dbl.addF]
  rw [hsum]
  have hd : ∀ x : Dbl, Dbl.div Dbl.nan x = Dbl.nan := by
    intro x; cases x <;> simp [Dbl.div, Dbl.divF]
  rw [hd, hd]
  rfl

/-! ## connect -/

theorem mkSocket_socketFd (c : SpeedTestClient) (net : Net) :
    (c.mkSocket net).2.1.mSocketFd = net.socketRet := by
  simp only [mkSocket]
  split_ifs <;> rfl

/-- After `connect` on a client without a socket the member `mSocketFd` holds whatever
`socket()` returned, on every path: no path assigns it again. -/
theorem connect_socketFd (c : SpeedTestClient) (net : Net) (h : c.mSocketFd = 0) :
    (c.connect net).2.1.mSocketFd = net.socketRet := by
  have hm := mkSocket_socketFd c net
  simp only [SpeedTestClient.connect, h, ne_eq, not_true_eq_false, if_false, close_client]
  generalize c.mkSocket net = m at hm ⊢
  split_ifs
  all_goals exact hm

/-- A failed `connect` leaves the descriptor in place whenever `socket()` returned one,
and the next `connect` then returns true at once: no socket is opened and no handshake
is made. -/
theorem connect_after_failure (c : SpeedTestClient) (net net1 : Net) (h : c.mSocketFd = 0)
    (hs : net.socketRet ≠ 0) :
    (c.connect net).2.1.mSocketFd ≠ 0 ∧
    (c.connect net).2.1.connect net1 = (true, (c.connect net).2.1, net1) := by
  have hfd : (c.connect net).2.1.mSocketFd ≠ 0 := by
    rw [connect_socketFd c net h]; exact hs
  exact ⟨hfd, connect_of_socket _ _ hfd⟩

/-- C11 (the code at the failing input): when the dial fails, `connect` returns false but
the client keeps descriptor 3 (no `close` is made), and when the reply is `BYE`,
`connect` returns false after `close`, which does not reset descriptor 3 either; in both
cases the following `connect` returns true without any socket operation, with the
version still unset (after `BYE` no version is stored). -/
theorem connect_failure_keeps_socket :
    ((create exampleServer).connect refusingNet).1 = false ∧
    ((create exampleServer).connect refusingNet).2.1.mSocketFd = 3 ∧
    ((create exampleServer).connect refusingNet).2.2.log =
      [SockOp.socket 3, SockOp.dial 3 8080] ∧
    (((create exampleServer).connect refusingNet).2.1.connect helloNet).1 = true ∧
    (((create exampleServer).connect refusingNet).2.1.connect helloNet).2.2.log = [] ∧
    (((create exampleServer).connect refusingNet).2.1.connect helloNet).2.1.mServerVersion =
      Dbl.fin (-1) ∧
    ((create exampleServer).connect byeNet).1 = false ∧
    ((create exampleServer).connect byeNet).2.1.mSocketFd = 3 ∧
    ((create exampleServer).connect byeNet).2.2.log =
      [SockOp.socket 3, SockOp.dial 3 8080, SockOp.write 3 "HI\n".toList,
        SockOp.write 3 "QUIT\n".toList, SockOp.close 3] ∧
    (((create exampleServer).connect byeNet).2.1.connect helloNet).1 = true ∧
    (((create exampleServer).connect byeNet).2.1.connect helloNet).2.2.log = [] ∧
    ((create exampleServer).connect byeNet).2.1.mServerVersion = Dbl.fin (-1) := by
  refine ⟨by decide, by decide, by decide, by decide, by decide, by decide, by decide,
    by decide, by decide, by decide, by decide, by decide⟩

/-! ## readLine -/

theorem readLineLoop_line (t : Char) (rest : List Char) (ht : t = '\n' ∨ t = '\r') :
    ∀ (pre buffer : List Char), (∀ c ∈ pre, c ≠ '\n' ∧ c ≠ '\r') →
      readLineLoop (pre ++ t :: rest) buffer = (true, buffer ++ pre, rest) := by
  intro pre
  induction pre with
  | nil =>
    intro buffer _
    simp [readLineLoop, ht]
  | cons c cs ih =>
    intro buffer h
    have hc := h c (List.mem_cons_self _ _)
    have hn : ¬ (c = '\n' ∨ c = '\r') := by
      intro hor
      rcases hor with h1 | h1
      · exact hc.1 h1
      · exact hc.2 h1
    have e : (c :: cs) ++ t :: rest = c :: (cs ++ t :: rest) := rfl
    rw [e]
    simp only [readLineLoop, hn, if_false]
    rw [ih (buffer ++ [c]) (fun x hx => h x (List.mem_cons_of_mem _ hx))]
    simp

theorem readLineLoop_eof :
    ∀ (l buffer : List Char), (∀ c ∈ l, c ≠ '\n' ∧ c ≠ '\r') →
      readLineLoop l buffer = (false, buffer ++ l, []) := by
  intro l
  induction l with
  | nil => intro buffer _; simp [readLineLoop]
  | cons c cs ih =>
    intro buffer h
    have hc := h c (List.mem_cons_self _ _)
    have hn : ¬ (c = '\n' ∨ c = '\r') := by
      intro hor
      rcases hor with h1 | h1
      · exact hc.1 h1
      · exact hc.2 h1
    simp only [readLineLoop, hn, if_false]
    rw [ih (buffer ++ [c]) (fun x hx => h x (List.mem_cons_of_mem _ hx))]
    simp

/-- C14 (counterexample): the stream `\nPONG 1\n` contains a terminator, yet `readLine`
returns false on it: it consumes the first byte and finds the line empty. -/
theorem readLine_empty_line_fails :
    '\n' ∈ emptyLineNet.input ∧
    (readLine emptyLineNet 3 []).1 = false ∧
    (readLine emptyLineNet 3 []).2.1 = [] ∧
    (readLine emptyLineNet 3 []).2.2.input = "PONG 1\n".toList := by
  refine ⟨by decide, by decide, by decide, by decide⟩

/-- C14 (as amended): on a socket (`fd` not 0), if the stream contains a terminator,
`readLine` leaves in the buffer exactly the bytes that precede the first terminator and
consumes these bytes and that terminator and nothing after it, and it returns true when
these bytes are not empty and false when the line is empty; if the stream ends before
any terminator, `readLine` returns false. -/
theorem readLine_line (net : Net) (fd : Int) (buffer : List Char) (hfd : fd ≠ 0) :
    (∀ (pre : List Char) (t : Char) (rest : List Char), net.input = pre ++ t :: rest →
      (t = '\n' ∨ t = '\r') → (∀ c ∈ pre, c ≠ '\n' ∧ c ≠ '\r') →
      readLine net fd buffer = (decide (0 < pre.length), pre, { net with input := rest })) ∧
    ((∀ c ∈ net.input, c ≠ '\n' ∧ c ≠ '\r') → (readLine net fd buffer).1 = false) := by
  constructor
  · intro pre t rest hin ht hpre
    have h := readLineLoop_line t rest ht pre [] hpre
    simp only [readLine, hfd, if_false, hin, h, if_true, List.nil_append]
  · intro hno
    have h := readLineLoop_eof net.input [] hno
    simp [readLine, hfd, h]

/-- C14 (as amended), on the reply of the handshake: from the stream `HELLO 2.4 x\n`
`readLine` returns true with the line `HELLO 2.4 x` and leaves nothing unread. -/
theorem readLine_line_witness :
    (readLine helloNet 3 []).1 = true ∧
    (readLine helloNet 3 []).2.1 = "HELLO 2.4 x".toList ∧
    (readLine helloNet 3 []).2.2.input = [] := by
  have h := (readLine_line helloNet 3 [] (by decide)).1 "HELLO 2.4 x".toList '\n' []
    rfl (Or.inl rfl) (by decide)
  rw [h]
  exact ⟨by decide, rfl, rfl⟩

/-! ## The worker loop of execute -/

/-- With `incr_size >= 1` the size reaches `max_size` after `attemptBound` transfers at
the latest. -/
theorem attemptSize_bound (config : TestConfig) (hincr : 1 ≤ config.incr_size) :
    config.max_size ≤ attemptSize config (attemptBound config) := by
  have hpos : (0 : ℚ) < (config.incr_size : ℚ) := by exact_mod_cast hincr
  have h1 : ((config.max_size - config.start_size : Int) : ℚ) / (config.incr_size : ℚ) ≤
      ((attemptBound config : Nat) : ℚ) := by
    have a := Int.le_ceil
      (((config.max_size - config.start_size : Int) : ℚ) / (config.incr_size : ℚ))
    have b : (⌈((config.max_size - config.start_size : Int) : ℚ) / (config.incr_size : ℚ)⌉ : Int)
        ≤ ((attemptBound config : Nat) : Int) := Int.self_le_toNat _
    have c : ((⌈((config.max_size - config.start_size : Int) : ℚ) /
        (config.incr_size : ℚ)⌉ : Int) : ℚ) ≤ ((attemptBound config : Nat) : ℚ) := by
      exact_mod_cast b
    exact le_trans a c
  have h2 : ((config.max_size - config.start_size : Int) : ℚ) ≤
      ((attemptBound config : Nat) : ℚ) * (config.incr_size : ℚ) :=
    (div_le_iff₀ hpos).mp h1
  have h3 : config.max_size - config.start_size ≤
      ((attemptBound config : Nat) : Int) * config.incr_size := by
    exact_mod_cast h2
  simp only [attemptSize]
  omega

/-- With `incr_size >= 1` every clock makes the loop of a worker stop after some number
of transfers, at most `attemptBound`. -/
theorem exists_stopsAfter (config : TestConfig) (env : WorkerEnv)
    (hincr : 1 ≤ config.incr_size) :
    ∃ n, n ≤ attemptBound config ∧ stopsAfter config env n := by
  classical
  have hex : ∃ n, (0 < n ∧ env.elapsed (n - 1) > config.min_test_time_ms) ∨
      config.max_size ≤ attemptSize config n :=
    ⟨attemptBound config, Or.inr (attemptSize_bound config hincr)⟩
  refine ⟨Nat.find hex, Nat.find_le (Or.inr (attemptSize_bound config hincr)), ?_, ?_,
    Nat.find_spec hex⟩
  · intro k hk
    have := Nat.find_min hex hk
    push_neg at this
    exact this.2
  · intro k hk
    have := Nat.find_min hex hk
    push_neg at this
    have h := this.1 (Nat.succ_pos k)
    simpa using h

/-- C16: for `incr_size >= 1` and every clock and every outcome of the transfers, the loop
of a worker returns (given fuel for `attemptBound` iterations) after `n` transfers with
`n <= ceil((max_size - start_size) / incr_size)`, and `n = 0` when
`start_size >= max_size`; the `k`-th transfer asks for `start_size + k * incr_size`
bytes, so the sizes asked for are strictly increasing and each is below `max_size`; one
callback is made per transfer; and a transfer after which the clock exceeds
`min_test_time_ms` is the last one.  The values of `curr_size` stay in the range of
`long` when `start_size` and `max_size + incr_size` do. -/
theorem workerLoop_terminates (config : TestConfig) (env : WorkerEnv) (fuel : Nat)
    (hincr : 1 ≤ config.incr_size) (hfuel : attemptBound config ≤ fuel) :
    ∃ (n : Nat) (run : WorkerRun),
      workerLoop config env fuel 0 config.start_size ⟨[], [], []⟩ = some run ∧
      n ≤ attemptBound config ∧
      (config.max_size ≤ config.start_size → n = 0) ∧
      run.requested =
        (List.range n).map (fun k : Nat => config.start_size + (k : Int) * config.incr_size) ∧
      run.callbacks.length = n ∧
      run.requested.Pairwise (fun a b => a < b) ∧
      (∀ s ∈ run.requested, s < config.max_size) ∧
      (∀ k, k < n → env.elapsed k > config.min_test_time_ms → k + 1 = n) ∧
      (config.start_size ≤ LONG_MAX → config.max_size + config.incr_size ≤ LONG_MAX →
        ∀ k, k ≤ n → attemptSize config k ≤ LONG_MAX) := by
  obtain ⟨n, hn, hstop⟩ := exists_stopsAfter config env hincr
  have hrun := workerLoop_run config env n hstop n 0 fuel ⟨[], [], []⟩ (by omega)
    (le_trans hn hfuel)
    (by
      intro h0
      rcases hstop.2.2 with ⟨hpos, _⟩ | hge
      · omega
      · exact hge)
  have h0 : attemptSize config 0 = config.start_size := by simp [attemptSize]
  rw [h0, ← List.range_eq_range'] at hrun
  obtain ⟨ha, hb, hc⟩ := hstop
  refine ⟨n, _, hrun, hn, ?_, ?_, ?_, ?_, ?_, ?_, ?_⟩
  · intro hge
    by_contra hne
    have := ha 0 (Nat.pos_of_ne_zero hne)
    rw [h0] at this
    omega
  · simp only [List.nil_append]
    rfl
  · simp
  · simp only [List.nil_append]
    rw [List.pairwise_map]
    refine (List.pairwise_lt_range n).imp ?_
    intro a b hab
    simp only [attemptSize]
    have h1 : (a : Int) < (b : Int) := by exact_mod_cast hab
    have h2 : (a : Int) * config.incr_size < (b : Int) * config.incr_size :=
      Int.mul_lt_mul_of_pos_right h1 (by omega)
    omega
  · intro s hs
    simp only [List.nil_append, List.mem_map, List.mem_range] at hs
    obtain ⟨k, hk, rfl⟩ := hs
    exact ha k hk
  · intro k hk hgt
    by_contra hne
    have := hb k (by omega)
    omega
  · intro hs hm k hk
    rcases Nat.eq_zero_or_pos k with hk0 | hkpos
    · rw [hk0, h0]; exact hs
    · have h1 := ha (k - 1) (by omega)
      have h2 := attemptSize_succ config (k - 1)
      have h3 : k - 1 + 1 = k := by omega
      rw [h3] at h2
      omega

theorem attemptBound_preflight : attemptBound preflightConfigDownload = 12 := by
  have h : (⌈((preflightConfigDownload.max_size - preflightConfigDownload.start_size : Int)
      : ℚ) / (preflightConfigDownload.incr_size : ℚ)⌉ : Int) = 12 := by
    rw [Int.ceil_eq_iff]
    simp only [preflightConfigDownload]
    norm_num
  simp only [attemptBound, h]
  rfl

/-- C16, on the preflight configuration with transfers of one second each: the bound is
`ceil(1400000 / 125000) = 12`, and the loop returns within it, after 11 transfers. -/
theorem workerLoop_terminates_witness :
    (workerLoop preflightConfigDownload steadyEnv 12 0 600000 ⟨[], [], []⟩).map
      (fun r => r.requested.length) = some 11 ∧
    ∃ (n : Nat) (run : WorkerRun),
      workerLoop preflightConfigDownload steadyEnv 12 0 600000 ⟨[], [], []⟩ = some run ∧
      n ≤ 12 ∧
      run.requested = (List.range n).map (fun k : Nat => 600000 + (k : Int) * 125000) ∧
      (∀ s ∈ run.requested, s < 2000000) := by
  refine ⟨by decide, ?_⟩
  obtain ⟨n, run, h1, h2, _, h4, _, _, h7, _⟩ :=
    workerLoop_terminates preflightConfigDownload steadyEnv 12 (by decide)
      (le_of_eq attemptBound_preflight)
  rw [attemptBound_preflight] at h2
  exact ⟨n, run, h1, h2, h4, h7⟩

/-! ## harversine -/

/-- C15: read over the real numbers, `harversine` has the value
`2 * 6371 * asin(sqrt(sin^2((lat2 - lat1) / 2) + cos(lat1) * cos(lat2) *
sin^2((lon2 - lon1) / 2)))` on the angles converted to radians, it is symmetric, and it
vanishes on the diagonal. -/
theorem harversine_real (a b : ℝ × ℝ) :
    harversine realArith a b =
      2 * 6371 * Real.arcsin (Real.sqrt
        (Real.sin ((b.1 * Real.pi / 180 - a.1 * Real.pi / 180) / 2) ^ 2 +
          Real.cos (a.1 * Real.pi / 180) * Real.cos (b.1 * Real.pi / 180) *
            Real.sin ((b.2 * Real.pi / 180 - a.2 * Real.pi / 180) / 2) ^ 2)) ∧
    harversine realArith a b = harversine realArith b a ∧
    harversine realArith a a = 0 := by
  have hval : ∀ p q : ℝ × ℝ, harversine realArith p q =
      2 * 6371 * Real.arcsin (Real.sqrt
        (Real.sin ((q.1 * Real.pi / 180 - p.1 * Real.pi / 180) / 2) ^ 2 +
          Real.cos (p.1 * Real.pi / 180) * Real.cos (q.1 * Real.pi / 180) *
            Real.sin ((q.2 * Real.pi / 180 - p.2 * Real.pi / 180) / 2) ^ 2)) := by
    intro p q
    simp only [harversine, deg2rad, realArith, EARTH_RADIUS_KM]
    norm_num
    congr 2
    ring
  have hsq : ∀ x y : ℝ, Real.sin ((x - y) / 2) ^ 2 = Real.sin ((y - x) / 2) ^ 2 := by
    intro x y
    have : (x - y) / 2 = -((y - x) / 2) := by ring
    rw [this, Real.sin_neg]
    ring
  refine ⟨hval a b, ?_, ?_⟩
  · rw [hval a b, hval b a, hsq (b.1 * Real.pi / 180), hsq (b.2 * Real.pi / 180),
      mul_comm (Real.cos (a.1 * Real.pi / 180))]
  · rw [hval a a]
    simp

/-! ## fetchServers -/

theorem dblNotLt_of_le (x y : Dbl) (h : Dbl.le x y = true) : Dbl.lt y x = false := by
  cases x <;> cases y <;> simp_all [Dbl.lt, Dbl.le]

/-- A sort that keeps the promise of the C++ standard leaves records without a NaN
distance as a permutation in non-decreasing order of distance. -/
theorem sortedByDistance_of_stdSort (sort : List ServerInfo → List ServerInfo)
    (hsort : StdSort sort) (l : List ServerInfo) (hn : ∀ s ∈ l, s.distance ≠ Dbl.nan) :
    (sort l).Perm l ∧ sortedByDistance (sort l) := by
  obtain ⟨hp, hs⟩ := hsort l hn
  refine ⟨hp, ?_⟩
  exact hs.imp_of_mem (fun {a b} ha hb hab =>
    dblLe_of_not_lt _ _ (hn a (hp.mem_iff.mp ha)) (hn b (hp.mem_iff.mp hb)) hab)

/-- The loop of `fetchServers` appends the accepted records to `target`, in the order of
the document. -/
theorem readNodes_eq (env : FetchEnv) (ip : IPInfo) :
    ∀ (nodes : List XmlNode) (target out : List ServerInfo),
      readNodes env ip nodes target = some out →
      out = target ++ acceptedRecords env ip nodes := by
  intro nodes
  induction nodes with
  | nil =>
    intro target out h
    simp only [readNodes, Option.some.injEq] at h
    simp [acceptedRecords, h]
  | cons node rest ih =>
    intro target out h
    cases hp : processServerXMLNode env.stof node with
    | none => simp [readNodes, hp] at h
    | some info =>
      simp only [readNodes, hp] at h
      by_cases hu : info.url ≠ []
      · rw [if_pos hu] at h
        rw [ih _ _ h]
        simp [acceptedRecords, hp, hu]
      · rw [if_neg hu] at h
        rw [ih _ _ h]
        simp [acceptedRecords, hp, hu]

/-- The request of `fetchServers` failed, or its status is not 200, or its body is
empty: the function returns true with the sorted empty `target`, and `http_code` is the status
when the request itself succeeded. -/
theorem fetchServers_not_parsed (m : Macros) (env : FetchEnv) (mIpInfo : IPInfo)
    (url : List Char) (http_code : Int)
    (h : ¬ ((env.http m.SPEED_TEST_API_URL []).code = 0 ∧
      (env.http m.SPEED_TEST_API_URL []).status = 200 ∧
      (env.http m.SPEED_TEST_API_URL []).body ≠ [])) :
    fetchServers m env mIpInfo url http_code =
      some (true, env.sort [],
        if (env.http m.SPEED_TEST_API_URL []).code = 0
        then (env.http m.SPEED_TEST_API_URL []).status else http_code, mIpInfo) := by
  by_cases hc : (env.http m.SPEED_TEST_API_URL []).code = 0
  · have h2 : ¬ ((env.http m.SPEED_TEST_API_URL []).status = 200 ∧
        (env.http m.SPEED_TEST_API_URL []).body ≠ []) := fun h3 => h ⟨hc, h3⟩
    simp only [fetchServers, hc, if_true, h2, if_false]
  · simp only [fetchServers, hc, if_false]

/-- The body was fetched with status 200 and is not empty: the result of `fetchServers`
by the failure that occurs first, and otherwise the sorted accepted records. -/
theorem fetchServers_parsed (m : Macros) (env : FetchEnv) (mIpInfo : IPInfo)
    (url : List Char) (http_code : Int)
    (hc : (env.http m.SPEED_TEST_API_URL []).code = 0)
    (hs : (env.http m.SPEED_TEST_API_URL []).status = 200)
    (hb : (env.http m.SPEED_TEST_API_URL []).body ≠ [])
    (out : Bool × List ServerInfo × Int × IPInfo)
    (h : fetchServers m env mIpInfo url http_code = some out) :
    (env.allocOk = false ∧ out = (false, [], 200, mIpInfo)) ∨
    (env.allocOk = true ∧ env.readerOk = false ∧ out = (false, [], 200, mIpInfo)) ∨
    (env.allocOk = true ∧ env.readerOk = true ∧ ∃ info mIpInfo1,
      ipInfo m env mIpInfo ⟨[], [], Dbl.fin 0, Dbl.fin 0⟩ = some (false, info, mIpInfo1) ∧
      out = (false, [], 200, mIpInfo1)) ∨
    (env.allocOk = true ∧ env.readerOk = true ∧ ∃ info mIpInfo1,
      ipInfo m env mIpInfo ⟨[], [], Dbl.fin 0, Dbl.fin 0⟩ = some (true, info, mIpInfo1) ∧
      (env.xmlRead (env.http m.SPEED_TEST_API_URL []).body).2 ≠ 0 ∧
      out = (false, acceptedRecords env info
        (env.xmlRead (env.http m.SPEED_TEST_API_URL []).body).1, 200, mIpInfo1)) ∨
    (env.allocOk = true ∧ env.readerOk = true ∧ ∃ info mIpInfo1,
      ipInfo m env mIpInfo ⟨[], [], Dbl.fin 0, Dbl.fin 0⟩ = some (true, info, mIpInfo1) ∧
      (env.xmlRead (env.http m.SPEED_TEST_API_URL []).body).2 = 0 ∧
      out = (true, env.sort (acceptedRecords env info
        (env.xmlRead (env.http m.SPEED_TEST_API_URL []).body).1), 200, mIpInfo1)) := by
  have hsb : (env.http m.SPEED_TEST_API_URL []).status = 200 ∧
      (env.http m.SPEED_TEST_API_URL []).body ≠ [] := ⟨hs, hb⟩
  simp only [fetchServers, if_pos hc, if_pos hsb] at h
  cases ha : env.allocOk with
  | false =>
    simp only [ha, Bool.not_false, if_true, Option.some.injEq] at h
    exact Or.inl ⟨rfl, by rw [← h, hs]⟩
  | true =>
    simp only [ha, Bool.not_true, Bool.false_eq_true, if_false] at h
    cases hr : env.readerOk with
    | false =>
      simp only [hr, Bool.not_false, if_true, Option.some.injEq] at h
      exact Or.inr (Or.inl ⟨rfl, rfl, by rw [← h, hs]⟩)
    | true =>
      simp only [hr, Bool.not_true, Bool.false_eq_true, if_false] at h
      cases hi : ipInfo m env mIpInfo ⟨[], [], Dbl.fin 0, Dbl.fin 0⟩ with
      | none => simp [hi] at h
      | some res =>
        obtain ⟨ok, info, mIpInfo1⟩ := res
        cases ok with
        | false =>
          simp only [hi, Option.some.injEq] at h
          exact Or.inr (Or.inr (Or.inl ⟨rfl, rfl, info, mIpInfo1, rfl, by rw [← h, hs]⟩))
        | true =>
          simp only [hi] at h
          cases hn : readNodes env info
              (env.xmlRead (env.http m.SPEED_TEST_API_URL []).body).1 [] with
          | none => simp [hn] at h
          | some target =>
            have ht := readNodes_eq env info _ _ _ hn
            rw [List.nil_append] at ht
            simp only [hn] at h
            by_cases hx : (env.xmlRead (env.http m.SPEED_TEST_API_URL []).body).2 ≠ 0
            · rw [if_pos hx, Option.some.injEq] at h
              exact Or.inr (Or.inr (Or.inr (Or.inl
                ⟨rfl, rfl, info, mIpInfo1, rfl, hx, by rw [← h, hs, ht]⟩)))
            · rw [if_neg hx, Option.some.injEq] at h
              exact Or.inr (Or.inr (Or.inr (Or.inr
                ⟨rfl, rfl, info, mIpInfo1, rfl, not_not.mp hx, by rw [← h, hs, ht]⟩)))

/-- The run of `fetchServers` when the body was fetched with status 200, is not empty,
and the allocation, the reader and `ipInfo` succeed: the last return value of the reader
decides between failure with the records in document order and success with the sorted
records. -/
theorem fetchServers_run (m : Macros) (env : FetchEnv) (mIpInfo : IPInfo)
    (url : List Char) (http_code : Int) (info mIpInfo1 : IPInfo) (target : List ServerInfo)
    (hc : (env.http m.SPEED_TEST_API_URL []).code = 0)
    (hs : (env.http m.SPEED_TEST_API_URL []).status = 200)
    (hb : (env.http m.SPEED_TEST_API_URL []).body ≠ [])
    (ha : env.allocOk = true) (hr : env.readerOk = true)
    (hi : ipInfo m env mIpInfo ⟨[], [], Dbl.fin 0, Dbl.fin 0⟩ = some (true, info, mIpInfo1))
    (hn : readNodes env info (env.xmlRead (env.http m.SPEED_TEST_API_URL []).body).1 [] =
      some target) :
    fetchServers m env mIpInfo url http_code =
      if (env.xmlRead (env.http m.SPEED_TEST_API_URL []).body).2 ≠ 0
      then some (false, target, 200, mIpInfo1)
      else some (true, env.sort target, 200, mIpInfo1) := by
  have hsb : (env.http m.SPEED_TEST_API_URL []).status = 200 ∧
      (env.http m.SPEED_TEST_API_URL []).body ≠ [] := ⟨hs, hb⟩
  simp only [fetchServers, if_pos hc, if_pos hsb, ha, hr, Bool.not_true, Bool.false_eq_true,
    if_false, hi, hn]
  simp only [hs]

/-! ## The example sort -/

theorem linearInsert_perm (a : ServerInfo) :
    ∀ l : List ServerInfo, (linearInsert a l).Perm (a :: l) := by
  intro l
  induction l with
  | nil => exact List.Perm.refl _
  | cons b rest ih =>
    unfold linearInsert
    split_ifs
    · exact (List.Perm.cons b ih).trans (List.Perm.swap a b rest)
    · exact List.Perm.refl _

theorem insertionStep_perm (sorted : List ServerInfo) (a : ServerInfo) :
    (insertionStep sorted a).Perm (a :: sorted) := by
  cases sorted with
  | nil => exact List.Perm.refl _
  | cons first rest =>
    simp only [insertionStep]
    split_ifs
    · exact List.Perm.refl _
    · exact (List.reverse_perm _).trans
        ((linearInsert_perm a _).trans (List.Perm.cons a (List.reverse_perm _)))

theorem foldl_insertionStep_perm :
    ∀ (l acc : List ServerInfo), (l.foldl insertionStep acc).Perm (acc ++ l) := by
  intro l
  induction l with
  | nil => intro acc; simp
  | cons a rest ih =>
    intro acc
    rw [List.foldl_cons]
    refine (ih _).trans ?_
    refine ((insertionStep_perm acc a).append_right rest).trans ?_
    simpa using (@List.perm_middle _ a acc rest).symm

/-- The example sort returns a permutation, whatever the distances are. -/
theorem exampleSort_perm (l : List ServerInfo) : (exampleSort l).Perm l := by
  have h := foldl_insertionStep_perm l []
  simpa [exampleSort] using h

/-- Inserting from the back keeps the reversed sorted part in non-increasing order of
distance, when no distance is NaN. -/
theorem linearInsert_sorted (a : ServerInfo) (ha : a.distance ≠ Dbl.nan) :
    ∀ l : List ServerInfo, (∀ s ∈ l, s.distance ≠ Dbl.nan) →
      l.Pairwise (fun x y => Dbl.le y.distance x.distance = true) →
      (linearInsert a l).Pairwise (fun x y => Dbl.le y.distance x.distance = true) := by
  intro l
  induction l with
  | nil => intro _ _; simp [linearInsert]
  | cons b rest ih =>
    intro hn hs
    have hb := hn b (List.mem_cons_self _ _)
    have hs2 := List.pairwise_cons.mp hs
    unfold linearInsert
    by_cases hlt : Dbl.lt a.distance b.distance = true
    · rw [if_pos hlt]
      refine List.pairwise_cons.mpr ⟨?_, ih (fun s hs1 => hn s (List.mem_cons_of_mem _ hs1))
        hs2.2⟩
      intro y hy
      rcases List.mem_cons.mp ((linearInsert_perm a rest).mem_iff.mp hy) with h1 | h1
      · rw [h1]; exact dblLe_of_lt _ _ hlt
      · exact hs2.1 y h1
    · rw [if_neg hlt]
      have hba : Dbl.le b.distance a.distance = true :=
        dblLe_of_not_lt _ _ hb ha (by simpa using hlt)
      refine List.pairwise_cons.mpr ⟨?_, hs⟩
      intro y hy
      rcases List.mem_cons.mp hy with h1 | h1
      · rw [h1]; exact hba
      · exact dblLe_trans _ _ _ (hs2.1 y h1) hba

theorem insertionStep_sorted (sorted : List ServerInfo) (a : ServerInfo)
    (ha : a.distance ≠ Dbl.nan) (hn : ∀ s ∈ sorted, s.distance ≠ Dbl.nan)
    (hs : sortedByDistance sorted) : sortedByDistance (insertionStep sorted a) := by
  cases sorted with
  | nil => simp [insertionStep, sortedByDistance]
  | cons first rest =>
    simp only [insertionStep]
    by_cases hlt : Dbl.lt a.distance first.distance = true
    · rw [if_pos hlt]
      have haf := dblLe_of_lt _ _ hlt
      refine List.pairwise_cons.mpr ⟨?_, hs⟩
      intro y hy
      rcases List.mem_cons.mp hy with h1 | h1
      · rw [h1]; exact haf
      · exact dblLe_trans _ _ _ haf ((List.pairwise_cons.mp hs).1 y h1)
    · rw [if_neg hlt]
      unfold sortedByDistance
      rw [List.pairwise_reverse]
      apply linearInsert_sorted a ha
      · intro s hs1
        exact hn s (List.mem_reverse.mp hs1)
      · rw [List.pairwise_reverse]
        exact hs

theorem foldl_insertionStep_sorted :
    ∀ (l acc : List ServerInfo), (∀ s ∈ l, s.distance ≠ Dbl.nan) →
      (∀ s ∈ acc, s.distance ≠ Dbl.nan) → sortedByDistance acc →
      sortedByDistance (l.foldl insertionStep acc) := by
  intro l
  induction l with
  | nil => intro acc _ _ hs; exact hs
  | cons a rest ih =>
    intro acc hl hacc hs
    rw [List.foldl_cons]
    have ha := hl a (List.mem_cons_self _ _)
    apply ih _ (fun s hs1 => hl s (List.mem_cons_of_mem _ hs1))
    · intro s hs1
      rcases List.mem_cons.mp ((insertionStep_perm acc a).mem_iff.mp hs1) with h1 | h1
      · rw [h1]; exact ha
      · exact hacc s h1
    · exact insertionStep_sorted acc a ha hacc hs

/-- The example sort keeps the promise of the C++ standard. -/
theorem exampleSort_stdSort : StdSort exampleSort := by
  intro l hn
  refine ⟨exampleSort_perm l, ?_⟩
  have hs : sortedByDistance (exampleSort l) :=
    foldl_insertionStep_sorted l [] hn (fun s hs1 => by cases hs1) List.Pairwise.nil
  exact hs.imp (fun h => dblNotLt_of_le _ _ h)

/-! ## The example catalogue -/

theorem toF_fin (f : Format) (a : ℚ) : Dbl.toF f (Dbl.fin a) = Dbl.round f a := rfl

theorem mul_fin (a b : ℚ) : Dbl.mul (Dbl.fin a) (Dbl.fin b) = Dbl.round binary64 (a * b) := rfl

theorem round32_one : Dbl.round binary32 1 = Dbl.fin 1 := by
  apply round_pos binary32 _ _ 0 8388608 <;> norm_num [binary32]

theorem deg2rad_zero :
    deg2rad (dblArith binary32 exampleLibm) (Dbl.fin 0) = Dbl.fin 0 := by
  simp only [deg2rad, dblArith, mul_fin, zero_mul, round_zero,
    div_fin 0 180 (by norm_num), zero_div, toF_fin]

theorem deg2rad_180 :
    deg2rad (dblArith binary32 exampleLibm) (Dbl.fin 180) = Dbl.fin PI_F := by
  have h1 : Dbl.round binary64 (180 * M_PI) =
      Dbl.fin (4974073419394997 / 8796093022208) := by
    apply round_pos binary64 _ _ 9 4974073419394997 <;>
      norm_num [binary64, M_PI, Rat.mkRat_eq_div]
  have h2 : Dbl.round binary64 (4974073419394997 / 8796093022208 / 180) =
      Dbl.fin (884279719003555 / 281474976710656) := by
    apply round_pos binary64 _ _ 1 7074237752028440 <;> norm_num [binary64]
  have h3 : Dbl.round binary32 (884279719003555 / 281474976710656) = Dbl.fin PI_F := by
    apply round_pos binary32 _ _ 1 13176795 <;>
      norm_num [binary32, PI_F, Rat.mkRat_eq_div]
  simp only [deg2rad, dblArith, mul_fin, h1, div_fin _ 180 (by norm_num), h2, toF_fin, h3]

theorem deg2rad_nan : deg2rad (dblArith binary32 exampleLibm) Dbl.nan = Dbl.nan := by
  simp [deg2rad, dblArith, Dbl.mul, Dbl.mulF, Dbl.div, Dbl.divF, Dbl.toF]

theorem half_pi_f_ne_zero : HALF_PI_F ≠ 0 := by
  simp only [HALF_PI_F, Rat.mkRat_eq_div]; norm_num

/-- The body of `harversine`, with its local variables written out. -/
theorem harversine_eq {α : Type} (A : Arith α) (lat1 lon1 lat2 lon2 : α) :
    harversine A (lat1, lon1) (lat2, lon2) =
      A.toT (A.wmul (A.wmul (A.ofRat 2) (A.ofRat EARTH_RADIUS_KM))
        (A.asin (A.sqrt (A.add
          (A.mul (A.sin (A.div (A.sub (deg2rad A lat2) (deg2rad A lat1)) (A.ofRat 2)))
            (A.sin (A.div (A.sub (deg2rad A lat2) (deg2rad A lat1)) (A.ofRat 2))))
          (A.mul (A.mul (A.mul (A.cos (deg2rad A lat1)) (A.cos (deg2rad A lat2)))
            (A.sin (A.div (A.sub (deg2rad A lon2) (deg2rad A lon1)) (A.ofRat 2))))
            (A.sin (A.div (A.sub (deg2rad A lon2) (deg2rad A lon1)) (A.ofRat 2)))))))) :=
  rfl

/-- The distance of the far server from latitude 0, longitude 0, computed on floats:
20015.087890625 km. -/
theorem harversine_far :
    harversine (dblArith binary32 exampleLibm) (Dbl.fin 0, Dbl.fin 0)
      (Dbl.fin 0, Dbl.fin 180) = Dbl.fin (mkRat 10247725 512) := by
  rw [harversine_eq]
  simp only [deg2rad_zero, deg2rad_180]
  have s0 : Dbl.subF binary32 (Dbl.fin 0) (Dbl.fin 0) = Dbl.fin 0 := by
    rw [subF_fin]; norm_num [round_zero]
  have d0 : Dbl.divF binary32 (Dbl.fin 0) (Dbl.fin 2) = Dbl.fin 0 := by
    rw [divF_fin _ _ _ (by norm_num)]; norm_num [round_zero]
  have s1 : Dbl.subF binary32 (Dbl.fin PI_F) (Dbl.fin 0) = Dbl.fin PI_F := by
    rw [subF_fin]
    apply round_pos binary32 _ _ 1 13176795 <;>
      norm_num [binary32, PI_F, Rat.mkRat_eq_div]
  have d1 : Dbl.divF binary32 (Dbl.fin PI_F) (Dbl.fin 2) = Dbl.fin HALF_PI_F := by
    rw [divF_fin _ _ _ (by norm_num)]
    apply round_pos binary32 _ _ 0 13176795 <;>
      norm_num [binary32, PI_F, HALF_PI_F, Rat.mkRat_eq_div]
  have e1 : exampleLibm.sin (Dbl.fin HALF_PI_F) = Dbl.fin 1 := by
    simp [exampleLibm, half_pi_f_ne_zero]
  have e2 : exampleLibm.sin (Dbl.fin 0) = Dbl.fin 0 := by simp [exampleLibm]
  have e3 : exampleLibm.cos (Dbl.fin 0) = Dbl.fin 1 := by simp [exampleLibm]
  have e4 : exampleLibm.sqrt (Dbl.fin 1) = Dbl.fin 1 := by simp [exampleLibm]
  have e5 : exampleLibm.asin (Dbl.fin 1) = Dbl.fin HALF_PI_F := by simp [exampleLibm]
  have m0 : Dbl.mulF binary32 (Dbl.fin 0) (Dbl.fin 0) = Dbl.fin 0 := by
    rw [mulF_fin]; norm_num [round_zero]
  have m1 : Dbl.mulF binary32 (Dbl.fin 1) (Dbl.fin 1) = Dbl.fin 1 := by
    rw [mulF_fin]; norm_num [round32_one]
  have a1 : Dbl.addF binary32 (Dbl.fin 0) (Dbl.fin 1) = Dbl.fin 1 := by
    rw [addF_fin]; norm_num [round32_one]
  have w1 : Dbl.mul (Dbl.fin 2) (Dbl.fin EARTH_RADIUS_KM) = Dbl.fin 12742 := by
    rw [mul_fin]
    apply round_pos binary64 _ _ 13 7004988580560896 <;>
      norm_num [binary64, EARTH_RADIUS_KM]
  have w2 : Dbl.mul (Dbl.fin 12742) (Dbl.fin HALF_PI_F) =
      Dbl.fin (83949360945 / 4194304) := by
    rw [mul_fin]
    apply round_pos binary64 _ _ 14 5501705318891520 <;>
      norm_num [binary64, HALF_PI_F, Rat.mkRat_eq_div]
  have t1 : Dbl.toF binary32 (Dbl.fin (83949360945 / 4194304)) =
      Dbl.fin (mkRat 10247725 512) := by
    rw [toF_fin]
    apply round_pos binary32 _ _ 14 10247725 <;>
      norm_num [binary32, Rat.mkRat_eq_div]
  simp only [dblArith, s0, d0, s1, d1, e1, e2, e3, e4, e5, m0, m1, a1, w1, w2, t1]

theorem harversine_near :
    harversine (dblArith binary32 exampleLibm) (Dbl.fin 0, Dbl.fin 0)
      (Dbl.fin 0, Dbl.fin 0) = Dbl.fin 0 := by
  rw [harversine_eq]
  simp only [deg2rad_zero]
  have s0 : Dbl.subF binary32 (Dbl.fin 0) (Dbl.fin 0) = Dbl.fin 0 := by
    rw [subF_fin]; norm_num [round_zero]
  have d0 : Dbl.divF binary32 (Dbl.fin 0) (Dbl.fin 2) = Dbl.fin 0 := by
    rw [divF_fin _ _ _ (by norm_num)]; norm_num [round_zero]
  have e2 : exampleLibm.sin (Dbl.fin 0) = Dbl.fin 0 := by simp [exampleLibm]
  have e3 : exampleLibm.cos (Dbl.fin 0) = Dbl.fin 1 := by simp [exampleLibm]
  have e4 : exampleLibm.sqrt (Dbl.fin 0) = Dbl.fin 0 := by simp [exampleLibm]
  have e5 : exampleLibm.asin (Dbl.fin 0) = Dbl.fin 0 := by simp [exampleLibm]
  have m0 : Dbl.mulF binary32 (Dbl.fin 0) (Dbl.fin 0) = Dbl.fin 0 := by
    rw [mulF_fin]; norm_num [round_zero]
  have m1 : Dbl.mulF binary32 (Dbl.fin 1) (Dbl.fin 1) = Dbl.fin 1 := by
    rw [mulF_fin]; norm_num [round32_one]
  have m2 : Dbl.mulF binary32 (Dbl.fin 1) (Dbl.fin 0) = Dbl.fin 0 := by
    rw [mulF_fin]; norm_num [round_zero]
  have a0 : Dbl.addF binary32 (Dbl.fin 0) (Dbl.fin 0) = Dbl.fin 0 := by
    rw [addF_fin]; norm_num [round_zero]
  have w1 : Dbl.mul (Dbl.fin 2) (Dbl.fin EARTH_RADIUS_KM) = Dbl.fin 12742 := by
    rw [mul_fin]
    apply round_pos binary64 _ _ 13 7004988580560896 <;>
      norm_num [binary64, EARTH_RADIUS_KM]
  have w2 : Dbl.mul (Dbl.fin 12742) (Dbl.fin 0) = Dbl.fin 0 := by
    rw [mul_fin]; norm_num [round_zero]
  have t0 : Dbl.toF binary32 (Dbl.fin 0) = Dbl.fin 0 := by
    rw [toF_fin, round_zero]
  simp only [dblArith, s0, d0, e2, e3, e4, e5, m0, m1, m2, a0, w1, w2, t0]

theorem harversine_lost :
    harversine (dblArith binary32 exampleLibm) (Dbl.fin 0, Dbl.fin 0)
      (Dbl.nan, Dbl.fin 0) = Dbl.nan := by
  rw [harversine_eq]
  simp only [deg2rad_zero, deg2rad_nan]
  have h1 : Dbl.divF binary32 (Dbl.subF binary32 Dbl.nan (Dbl.fin 0)) (Dbl.fin 2) =
      Dbl.nan := by
    simp [Dbl.subF, Dbl.neg, Dbl.addF, Dbl.divF]
  have h2 : exampleLibm.sin Dbl.nan = Dbl.nan := by simp [exampleLibm]
  have h3 : exampleLibm.cos Dbl.nan = Dbl.nan := by simp [exampleLibm]
  have h4 : exampleLibm.sqrt Dbl.nan = Dbl.nan := by simp [exampleLibm]
  have h5 : exampleLibm.asin Dbl.nan = Dbl.nan := by simp [exampleLibm]
  have n1 : ∀ x : Dbl, Dbl.mulF binary32 Dbl.nan x = Dbl.nan := by
    intro x; cases x <;> simp [Dbl.mulF]
  have n2 : ∀ x : Dbl, Dbl.mulF binary32 x Dbl.nan = Dbl.nan := by
    intro x; cases x <;> simp [Dbl.mulF]
  have n3 : ∀ x : Dbl, Dbl.addF binary32 x Dbl.nan = Dbl.nan := by
    intro x; cases x <;> simp [Dbl.addF]
  have n4 : ∀ x : Dbl, Dbl.mul x Dbl.nan = Dbl.nan := by
    intro x; cases x <;> simp [Dbl.mul, Dbl.mulF]
  simp only [dblArith, h1, h2, h3, h4, h5, n1, n2, n3, n4, Dbl.toF]

theorem process_farNode :
    processServerXMLNode exampleStof farNode =
      some { farRecord with distance := Dbl.fin 0 } := by decide

theorem process_nearNode :
    processServerXMLNode exampleStof nearNode =
      some { nearRecord with distance := Dbl.fin 0 } := by decide

theorem process_nanNode :
    processServerXMLNode exampleStof nanNode =
      some { nanRecord with distance := Dbl.fin 0 } := by decide

theorem process_settingsNode :
    processServerXMLNode exampleStof settingsNode = some ServerInfo.empty := by decide

theorem process_noUrlNode :
    processServerXMLNode exampleStof noUrlNode = some { ServerInfo.empty with id := 4 } := by
  decide

theorem ipInfo_catalogueEnv (nodes : List XmlNode) (ret : Int) :
    ipInfo exampleMacros (catalogueEnv nodes ret) ⟨[], [], Dbl.fin 0, Dbl.fin 0⟩
      ⟨[], [], Dbl.fin 0, Dbl.fin 0⟩ = some (true, exampleIpInfo, exampleIpInfo) := by
  rfl

theorem readNodes_complete (ret : Int) :
    readNodes (catalogueEnv completeNodes ret) exampleIpInfo completeNodes [] =
      some [farRecord, nearRecord] := by
  simp [completeNodes, readNodes, catalogueEnv, process_farNode, process_nearNode,
    process_settingsNode, process_noUrlNode, exampleIpInfo, harversine_far, harversine_near,
    farRecord, nearRecord, ServerInfo.empty]

theorem readNodes_truncated (ret : Int) :
    readNodes (catalogueEnv truncatedNodes ret) exampleIpInfo truncatedNodes [] =
      some [farRecord, nearRecord] := by
  simp [truncatedNodes, readNodes, catalogueEnv, process_farNode, process_nearNode,
    process_settingsNode, exampleIpInfo, harversine_far, harversine_near,
    farRecord, nearRecord, ServerInfo.empty]

theorem readNodes_nan (ret : Int) :
    readNodes (catalogueEnv nanNodes ret) exampleIpInfo nanNodes [] =
      some [farRecord, nanRecord, nearRecord] := by
  simp [nanNodes, readNodes, catalogueEnv, process_farNode, process_nearNode,
    process_nanNode, process_settingsNode, exampleIpInfo, harversine_far, harversine_near,
    harversine_lost, farRecord, nearRecord, nanRecord, ServerInfo.empty]

theorem farRecord_not_le_nearRecord :
    Dbl.le farRecord.distance nearRecord.distance = false := by
  simp only [farRecord, nearRecord, Dbl.le, decide_eq_false_iff_not, not_le,
    Rat.mkRat_eq_div]
  norm_num

theorem nearRecord_lt_farRecord :
    Dbl.lt nearRecord.distance farRecord.distance = true := by
  simp only [farRecord, nearRecord, Dbl.lt, decide_eq_true_eq, Rat.mkRat_eq_div]
  norm_num

theorem sort_far_near : exampleSort [farRecord, nearRecord] = [nearRecord, farRecord] := by
  simp [exampleSort, insertionStep, nearRecord_lt_farRecord]

theorem sort_far_nan_near :
    exampleSort [farRecord, nanRecord, nearRecord] = [nearRecord, farRecord, nanRecord] := by
  have h1 : Dbl.lt nanRecord.distance farRecord.distance = false := by
    simp [nanRecord, farRecord, Dbl.lt]
  simp [exampleSort, insertionStep, linearInsert, nearRecord_lt_farRecord, h1]

/-- The example catalogue is fetched, and the complete document is read to its end: the
two servers with a url, the nearer one first. -/
theorem fetchServers_complete (url : List Char) (http_code : Int) :
    fetchServers exampleMacros (catalogueEnv completeNodes 0) noIpInfo url http_code =
      some (true, [nearRecord, farRecord], 200, exampleIpInfo) := by
  rw [fetchServers_run exampleMacros (catalogueEnv completeNodes 0) noIpInfo url http_code
    exampleIpInfo exampleIpInfo [farRecord, nearRecord] rfl rfl (by decide) rfl rfl
    (ipInfo_catalogueEnv _ _) (readNodes_complete 0)]
  have hs : (catalogueEnv completeNodes 0).sort [farRecord, nearRecord] =
      [nearRecord, farRecord] := sort_far_near
  rw [hs]
  rfl

/-- The example catalogue breaks off: `fetchServers` returns false and leaves the two
servers in the order of the document. -/
theorem fetchServers_truncated (url : List Char) (http_code : Int) :
    fetchServers exampleMacros (catalogueEnv truncatedNodes (-1)) noIpInfo url http_code =
      some (false, [farRecord, nearRecord], 200, exampleIpInfo) := by
  rw [fetchServers_run exampleMacros (catalogueEnv truncatedNodes (-1)) noIpInfo url
    http_code exampleIpInfo exampleIpInfo [farRecord, nearRecord] rfl rfl (by decide) rfl rfl
    (ipInfo_catalogueEnv _ _) (readNodes_truncated (-1))]
  rfl

/-- The example catalogue with a latitude `nan` is read to its end: `fetchServers`
returns true, and the insertion sort of libstdc++ leaves the record with the NaN distance
last. -/
theorem fetchServers_nan (url : List Char) (http_code : Int) :
    fetchServers exampleMacros (catalogueEnv nanNodes 0) noIpInfo url http_code =
      some (true, [nearRecord, farRecord, nanRecord], 200, exampleIpInfo) := by
  rw [fetchServers_run exampleMacros (catalogueEnv nanNodes 0) noIpInfo url http_code
    exampleIpInfo exampleIpInfo [farRecord, nanRecord, nearRecord] rfl rfl (by decide) rfl rfl
    (ipInfo_catalogueEnv _ _) (readNodes_nan 0)]
  have hs : (catalogueEnv nanNodes 0).sort [farRecord, nanRecord, nearRecord] =
      [nearRecord, farRecord, nanRecord] := sort_far_nan_near
  rw [hs]
  rfl

/-- No arrangement of records of which one has the distance NaN and another has not is
in non-decreasing order of distance. -/
theorem not_sortedByDistance_of_nan (l : List ServerInfo) (a b : ServerInfo)
    (ha : a ∈ l) (hb : b ∈ l) (hab : a ≠ b) (hn : a.distance = Dbl.nan) :
    ¬ sortedByDistance l := by
  intro hs
  have hs2 : l.Pairwise (fun x y => Dbl.le x.distance y.distance = true ∨
      Dbl.le y.distance x.distance = true) := hs.imp (fun h => Or.inl h)
  have hsym : Symmetric (fun x y : ServerInfo => Dbl.le x.distance y.distance = true ∨
      Dbl.le y.distance x.distance = true) := fun _ _ h => h.symm
  have h := hs2.forall hsym ha hb hab
  rw [hn] at h
  cases hd : b.distance <;> simp [hd, Dbl.le] at h

theorem acceptedRecords_truncated :
    acceptedRecords (catalogueEnv truncatedNodes (-1)) exampleIpInfo truncatedNodes =
      [farRecord, nearRecord] := by
  have h := readNodes_eq _ _ _ _ _ (readNodes_truncated (-1))
  rw [List.nil_append] at h
  exact h.symm

theorem acceptedRecords_complete :
    acceptedRecords (catalogueEnv completeNodes 0) exampleIpInfo completeNodes =
      [farRecord, nearRecord] := by
  have h := readNodes_eq _ _ _ _ _ (readNodes_complete 0)
  rw [List.nil_append] at h
  exact h.symm

/-- The list that `fetchServers` leaves when the document breaks off is what `serverList`
hands to its caller. -/
theorem serverList_truncated :
    serverList exampleMacros (catalogueEnv truncatedNodes (-1)) noIpInfo [] =
      some ([farRecord, nearRecord], exampleIpInfo) := by
  simp only [serverList, ne_eq, not_true_eq_false, if_false, fetchServers_truncated]

/-- Every accepted record has a url and carries the `harversine` distance of its own
coordinates from the caller. -/
theorem acceptedRecords_mem (env : FetchEnv) (ip : IPInfo) (nodes : List XmlNode)
    (s : ServerInfo) (hs : s ∈ acceptedRecords env ip nodes) :
    s.url ≠ [] ∧
      s.distance = harversine (dblArith env.fmt env.libm) (ip.lat, ip.lon) (s.lat, s.lon) := by
  unfold acceptedRecords at hs
  obtain ⟨node, _, hnode⟩ := List.mem_filterMap.mp hs
  cases hp : processServerXMLNode env.stof node with
  | none => simp [hp] at hnode
  | some info =>
    simp only [hp] at hnode
    by_cases hu : info.url ≠ []
    · rw [if_pos hu, Option.some.injEq] at hnode
      rw [← hnode]
      exact ⟨hu, rfl⟩
    · rw [if_neg hu] at hnode
      cases hnode

/-- C12 (as stated, refuted): the list that `fetchServers` leaves in `target` need not
be in non-decreasing order of distance.  When the catalogue document breaks off after
two servers, the function returns false and leaves the two accepted records in the order
of the document, the farther one (20015.087890625 km) before the nearer one (0 km).
When a latitude attribute reads `nan`, the function returns true with a record whose
distance is NaN, and neither the list it leaves nor any other arrangement of the three
records is in non-decreasing order. -/
theorem fetchServers_target_not_sorted :
    fetchServers exampleMacros (catalogueEnv truncatedNodes (-1)) noIpInfo
        exampleMacros.SPEED_TEST_SERVER_LIST_URL 0 =
      some (false, [farRecord, nearRecord], 200, exampleIpInfo) ∧
    acceptedRecords (catalogueEnv truncatedNodes (-1)) exampleIpInfo truncatedNodes =
      [farRecord, nearRecord] ∧
    ¬ sortedByDistance [farRecord, nearRecord] ∧
    fetchServers exampleMacros (catalogueEnv nanNodes 0) noIpInfo
        exampleMacros.SPEED_TEST_SERVER_LIST_URL 0 =
      some (true, [nearRecord, farRecord, nanRecord], 200, exampleIpInfo) ∧
    ¬ sortedByDistance [nearRecord, farRecord, nanRecord] ∧
    (∀ l : List ServerInfo, l.Perm [farRecord, nanRecord, nearRecord] →
      ¬ sortedByDistance l) := by
  have hall : ∀ l : List ServerInfo, l.Perm [farRecord, nanRecord, nearRecord] →
      ¬ sortedByDistance l := by
    intro l hl
    exact not_sortedByDistance_of_nan l nanRecord nearRecord
      (hl.mem_iff.mpr (by simp)) (hl.mem_iff.mpr (by simp)) (by decide) rfl
  refine ⟨fetchServers_truncated _ _, acceptedRecords_truncated, ?_, fetchServers_nan _ _,
    ?_, hall⟩
  · intro h
    have h1 := (List.pairwise_cons.mp h).1 nearRecord (List.mem_singleton.mpr rfl)
    rw [farRecord_not_le_nearRecord] at h1
    exact Bool.false_ne_true h1
  · apply hall
    decide

/-- C12 (as amended): for a body that was fetched with status 200 and is not empty, if
`fetchServers` returns true and no accepted record has a NaN distance, then the list it
leaves in `target` is in non-decreasing order of distance and is a permutation of exactly
the parsed `server` records whose url attribute is not empty, each with its distance set
to the `harversine` distance of its coordinates from the `(lat, lon)` of the caller that
`ipInfo` gave.  The library `std::sort` is taken to keep the promise of the C++
standard. -/
theorem fetchServers_sorted (m : Macros) (env : FetchEnv) (mIpInfo : IPInfo)
    (url : List Char) (http_code : Int) (target : List ServerInfo) (status : Int)
    (mIpInfo1 : IPInfo)
    (hsort : StdSort env.sort)
    (hc : (env.http m.SPEED_TEST_API_URL []).code = 0)
    (hs : (env.http m.SPEED_TEST_API_URL []).status = 200)
    (hb : (env.http m.SPEED_TEST_API_URL []).body ≠ [])
    (h : fetchServers m env mIpInfo url http_code = some (true, target, status, mIpInfo1))
    (hnan : ∀ info mIp, ipInfo m env mIpInfo ⟨[], [], Dbl.fin 0, Dbl.fin 0⟩ =
        some (true, info, mIp) →
      ∀ s ∈ acceptedRecords env info (env.xmlRead (env.http m.SPEED_TEST_API_URL []).body).1,
        s.distance ≠ Dbl.nan) :
    sortedByDistance target ∧
    ∃ info, ipInfo m env mIpInfo ⟨[], [], Dbl.fin 0, Dbl.fin 0⟩ =
        some (true, info, mIpInfo1) ∧
      target.Perm (acceptedRecords env info
        (env.xmlRead (env.http m.SPEED_TEST_API_URL []).body).1) ∧
      ∀ s ∈ target, s.url ≠ [] ∧
        s.distance =
          harversine (dblArith env.fmt env.libm) (info.lat, info.lon) (s.lat, s.lon) := by
  rcases fetchServers_parsed m env mIpInfo url http_code hc hs hb _ h with
    h1 | h1 | h1 | h1 | h1
  · simp at h1
  · simp at h1
  · obtain ⟨_, _, _, _, _, h2⟩ := h1
    simp at h2
  · obtain ⟨_, _, _, _, _, _, h2⟩ := h1
    simp at h2
  · obtain ⟨_, _, info, mIp, hi, _, h2⟩ := h1
    simp only [Prod.mk.injEq, true_and] at h2
    obtain ⟨ht, _, hm⟩ := h2
    subst ht
    subst hm
    obtain ⟨hperm, hsorted⟩ := sortedByDistance_of_stdSort env.sort hsort _ (hnan info _ hi)
    refine ⟨hsorted, info, hi, hperm, ?_⟩
    intro s hs1
    exact acceptedRecords_mem env info _ s (hperm.mem_iff.mp hs1)

/-- C12 (as amended), on the example catalogue: the complete document is fetched with
status 200 and read to its end, the example sort keeps the promise of the standard, no
distance is NaN, and `fetchServers` returns true with the nearer server first. -/
theorem fetchServers_sorted_witness :
    fetchServers exampleMacros (catalogueEnv completeNodes 0) noIpInfo
        exampleMacros.SPEED_TEST_SERVER_LIST_URL 0 =
      some (true, [nearRecord, farRecord], 200, exampleIpInfo) ∧
    sortedByDistance [nearRecord, farRecord] ∧
    [nearRecord, farRecord].Perm
      (acceptedRecords (catalogueEnv completeNodes 0) exampleIpInfo completeNodes) := by
  have hi : ipInfo exampleMacros (catalogueEnv completeNodes 0) noIpInfo
      ⟨[], [], Dbl.fin 0, Dbl.fin 0⟩ = some (true, exampleIpInfo, exampleIpInfo) :=
    ipInfo_catalogueEnv _ _
  have hn : ∀ info mIp, ipInfo exampleMacros (catalogueEnv completeNodes 0) noIpInfo
      ⟨[], [], Dbl.fin 0, Dbl.fin 0⟩ = some (true, info, mIp) →
      ∀ s ∈ acceptedRecords (catalogueEnv completeNodes 0) info
        ((catalogueEnv completeNodes 0).xmlRead
          ((catalogueEnv completeNodes 0).http exampleMacros.SPEED_TEST_API_URL []).body).1,
        s.distance ≠ Dbl.nan := by
    intro info mIp h1
    rw [hi] at h1
    simp only [Option.some.injEq, Prod.mk.injEq, true_and] at h1
    rw [← h1.1]
    intro s hs1
    have hs2 : s ∈ [farRecord, nearRecord] := by
      rw [← acceptedRecords_complete]; exact hs1
    rcases List.mem_cons.mp hs2 with h2 | h2
    · rw [h2]; simp [farRecord]
    · rw [List.mem_singleton.mp h2]; simp [nearRecord]
  obtain ⟨hsorted, info, hi2, hperm, _⟩ := fetchServers_sorted exampleMacros
    (catalogueEnv completeNodes 0) noIpInfo exampleMacros.SPEED_TEST_SERVER_LIST_URL 0
    [nearRecord, farRecord] 200 exampleIpInfo exampleSort_stdSort rfl rfl (by decide)
    (fetchServers_complete _ _) hn
  rw [hi] at hi2
  simp only [Option.some.injEq, Prod.mk.injEq, true_and, and_true] at hi2
  subst hi2
  exact ⟨fetchServers_complete _ _, hsorted, hperm⟩

/-- C13 (refuted on the code): `fetchServers` returns true, with an empty `target`, when
the request fails in transport, when the status is 404, when the status is 204 (a 2xx
status other than 200) whatever the body, and when the body is empty; in none of these
runs is a document parsed.  The failures after the test of the status do return false:
no reader, and a document that breaks off.  The request never goes to the parameter
`url`: the result is the same for every `url`. -/
theorem fetchServers_true_without_catalogue :
    fetchServers exampleMacros offlineEnv noIpInfo
        exampleMacros.SPEED_TEST_SERVER_LIST_URL 0 = some (true, [], 0, noIpInfo) ∧
    fetchServers exampleMacros (answerEnv 404 "Not Found".toList) noIpInfo
        exampleMacros.SPEED_TEST_SERVER_LIST_URL 0 = some (true, [], 404, noIpInfo) ∧
    fetchServers exampleMacros (answerEnv 204 "<settings><servers>".toList) noIpInfo
        exampleMacros.SPEED_TEST_SERVER_LIST_URL 0 = some (true, [], 204, noIpInfo) ∧
    fetchServers exampleMacros (answerEnv 200 []) noIpInfo
        exampleMacros.SPEED_TEST_SERVER_LIST_URL 0 = some (true, [], 200, noIpInfo) ∧
    fetchServers exampleMacros { catalogueEnv completeNodes 0 with readerOk := false } noIpInfo
        exampleMacros.SPEED_TEST_SERVER_LIST_URL 0 = some (false, [], 200, noIpInfo) ∧
    (fetchServers exampleMacros (catalogueEnv truncatedNodes (-1)) noIpInfo
        exampleMacros.SPEED_TEST_SERVER_LIST_URL 0).map (fun out => out.1) = some false ∧
    (∀ (m : Macros) (env : FetchEnv) (mIpInfo : IPInfo) (url : List Char) (http_code : Int),
      fetchServers m env mIpInfo url http_code = fetchServers m env mIpInfo [] http_code) := by
  refine ⟨by decide, by decide, by decide, by decide, by decide, ?_, fun _ _ _ _ _ => rfl⟩
  rw [fetchServers_truncated]
  rfl

end SpeedTest
